import Mathlib

/-!
# Marketplace validator: tools/validate/main.go

A shallow embedding of the validator command and the properties of its three
validators.

* Go strings are byte sequences: `GoString` is `List UInt8`, and a string
  literal of the source is written `str "..."` (its UTF-8 encoding).
* A Go `error` result is `Except GoString Unit`: `.ok ()` is `nil`, and
  `.error msg` is an error whose text (what `%v` prints) is `msg`.
* The file system and the JSON decoder are outside the program: `os.ReadFile`
  and `json.Unmarshal` are parameters of the validators.
* The functions of package `strings` that the program calls are modelled after
  the Go standard library.
* The command reads its environment from a `World`; its writes and its exit
  status are the `Run` that `main` returns.
* `UnmarshalPluginConfig` is `json.Unmarshal` into a `PluginConfig`, modelled
  after package `encoding/json` from the JSON value that the data reads as.
-/

namespace Validate

/-! ## Strings -/

/-- A Go string: an immutable sequence of bytes. -/
abbrev GoString := List UInt8

/-- The bytes of a source string literal (UTF-8). -/
def str (s : String) : GoString := s.data.flatMap String.utf8EncodeChar

/-- Decimal text of a non-negative integer, as the verb `%d` prints it. -/
def Itoa (i : Nat) : GoString := str (Nat.repr i)

/-- Go `strings.HasPrefix(s, pre)`:
`len(s) >= len(pre) && s[:len(pre)] == pre`. -/
def HasPrefix (s pre : GoString) : Bool :=
  decide (pre.length ≤ s.length) && (s.take pre.length == pre)

/-- Go `strings.HasSuffix(s, suf)`:
`len(s) >= len(suf) && s[len(s)-len(suf):] == suf`. -/
def HasSuffix (s suf : GoString) : Bool :=
  decide (suf.length ≤ s.length) && (s.drop (s.length - suf.length) == suf)

/-- Go `strings.Index(s, substr)`: the offset of the first occurrence of
`substr` in `s`; `none` stands for the result `-1`. -/
def Index (s substr : GoString) : Option Nat :=
  if HasPrefix s substr then some 0
  else
    match s with
    | [] => none
    | _ :: t => (Index t substr).map (· + 1)

/-- Go `strings.Contains(s, substr)`: `Index(s, substr) >= 0`. -/
def Contains (s substr : GoString) : Bool := (Index s substr).isSome

/-- The loop of Go `strings.genSplit`, with `k` the number of separators still
to be looked for (`n - 1 - i` in the source):

    for i < n {
      m := Index(s, sep); if m < 0 { break }
      a[i] = s[:m+sepSave]; s = s[m+len(sep):]; i++
    }
    a[i] = s
-/
def genSplitLoop (sep : GoString) (sepSave : Nat) : Nat → GoString → List GoString
  | 0, s => [s]
  | k + 1, s =>
    match Index s sep with
    | none => [s]
    | some m => s.take (m + sepSave) :: genSplitLoop sep sepSave k (s.drop (m + sep.length))

/-- Go `strings.genSplit(s, sep, sepSave, n)` for a non-empty separator and a
count `n ≥ 0`. For `n == 0` the result is empty; a count above `len(s)+1` is
lowered to `len(s)+1`. The branches for an empty separator (`explode`) and for
a negative count are excluded by the types of the arguments. -/
def genSplit (s sep : GoString) (sepSave n : Nat) (_hsep : sep ≠ []) : List GoString :=
  if n = 0 then []
  else
    let n := if n > s.length + 1 then s.length + 1 else n
    genSplitLoop sep sepSave (n - 1) s

/-- Go `strings.SplitN(s, sep, n)`: `genSplit(s, sep, 0, n)`. -/
def SplitN (s sep : GoString) (n : Nat) (hsep : sep ≠ []) : List GoString :=
  genSplit s sep 0 n hsep

/-! ## Data model -/

deriving instance DecidableEq for Except

/-- A value of Go type `interface{}` as `encoding/json` produces it. A number
is kept as the text of its literal. -/
inductive JSONValue where
  | null
  | bool (b : Bool)
  | number (literal : GoString)
  | string (s : GoString)
  | array (items : List JSONValue)
  | object (members : List (GoString × JSONValue))

/-- Go `type Owner struct`. -/
structure Owner where
  Name : GoString
  Email : GoString
  URL : GoString

/-- Go `type Plugin struct`; `Author` is a pointer, `none` when nil. -/
structure Plugin where
  Name : GoString
  Source : GoString
  Description : GoString
  Version : GoString
  Author : Option Owner
  Category : GoString

/-- Go `type MarketplaceConfig struct`: the marketplace.json structure. -/
structure MarketplaceConfig where
  Schema : GoString
  Name : GoString
  Owner : Owner
  Description : GoString
  Version : GoString
  Plugins : List Plugin

/-- Go `type PluginConfig struct`: the plugin.json structure. -/
structure PluginConfig where
  Name : GoString
  DisplayName : GoString
  Description : GoString
  Version : GoString
  Author : Owner
  License : GoString
  Repository : GoString
  Homepage : GoString
  Keywords : List GoString
  Agents : GoString
  Commands : GoString
  MCPServers : List (GoString × JSONValue)

/-! ## The validators -/

/-- The body of `for i, plugin := range config.Plugins` in
`validateMarketplace`, started at index `i` on the entries still to visit. -/
def validatePluginEntries : Nat → List Plugin → Except GoString Unit
  | _, [] => .ok ()
  | i, plugin :: rest =>
    if plugin.Name = [] then
      .error (str "plugin[" ++ Itoa i ++ str "].name is required")
    else if plugin.Source = [] then
      .error (str "plugin[" ++ Itoa i ++ str "].source is required")
    else
      validatePluginEntries (i + 1) rest

/-- Go `validateMarketplace(path)`. -/
def validateMarketplace (readFile : GoString → Except GoString GoString)
    (unmarshal : GoString → Except GoString MarketplaceConfig)
    (path : GoString) : Except GoString Unit :=
  match readFile path with
  | .error err => .error (str "failed to read file: " ++ err)
  | .ok data =>
    match unmarshal data with
    | .error err => .error (str "invalid JSON: " ++ err)
    | .ok config =>
      if config.Name = [] then
        .error (str "name is required")
      else if config.Owner.Name = [] then
        .error (str "owner.name is required")
      else if config.Owner.Email = [] then
        .error (str "owner.email is required")
      else if config.Version = [] then
        .error (str "version is required")
      else if config.Plugins.length = 0 then
        .error (str "at least one plugin is required")
      else
        validatePluginEntries 0 config.Plugins

/-- Go `validatePlugin(path)`. -/
def validatePlugin (readFile : GoString → Except GoString GoString)
    (unmarshal : GoString → Except GoString PluginConfig)
    (path : GoString) : Except GoString Unit :=
  match readFile path with
  | .error err => .error (str "failed to read file: " ++ err)
  | .ok data =>
    match unmarshal data with
    | .error err => .error (str "invalid JSON: " ++ err)
    | .ok config =>
      if config.Name = [] then
        .error (str "name is required")
      else if config.Description = [] then
        .error (str "description is required")
      else if config.Version = [] then
        .error (str "version is required")
      else if config.Author.Name = [] then
        .error (str "author.name is required")
      else if config.Author.Email = [] then
        .error (str "author.email is required")
      else
        .ok ()

/-- The header delimiter line of a documentation file. -/
def delim : GoString := str "---\n"

/-- Go `validateYAMLFrontmatter(path)`. -/
def validateYAMLFrontmatter (readFile : GoString → Except GoString GoString)
    (path : GoString) : Except GoString Unit :=
  match readFile path with
  | .error err => .error (str "failed to read file: " ++ err)
  | .ok content =>
    if !HasPrefix content delim then
      -- Frontmatter is optional for commands
      if Contains path (str "/commands/") then .ok ()
      else .error (str "missing YAML frontmatter")
    else
      -- Simple validation - just check that frontmatter closes
      let parts := SplitN content delim 3 (by decide)
      if parts.length < 3 then
        .error (str "YAML frontmatter not properly closed")
      else
        .ok ()

/-! ## Vocabulary of the specification -/

/-- The pieces of a text between line breaks; the last line has no trailing
line break. -/
def lines (content : GoString) : List GoString := content.splitOn 10

/-- The segments of a path: the pieces between `/` separators. -/
def pathSegments (path : GoString) : List GoString := path.splitOn 47

/-! ## Sample inputs -/

/-- A plugin entry with the given name and source and no optional field. -/
def entry (name source : GoString) : Plugin :=
  { Name := name, Source := source, Description := [], Version := [],
    Author := none, Category := [] }

/-- A marketplace descriptor with the given required fields and plugin
entries. -/
def marketplace (name ownerName ownerEmail version : GoString)
    (plugins : List Plugin) : MarketplaceConfig :=
  { Schema := [], Name := name,
    Owner := { Name := ownerName, Email := ownerEmail, URL := [] },
    Description := [], Version := version, Plugins := plugins }

/-- A plugin descriptor with the given required fields and no optional
field. -/
def pluginConfig (name description version authorName authorEmail : GoString) :
    PluginConfig :=
  { Name := name, DisplayName := [], Description := description,
    Version := version,
    Author := { Name := authorName, Email := authorEmail, URL := [] },
    License := [], Repository := [], Homepage := [], Keywords := [],
    Agents := [], Commands := [], MCPServers := [] }

/-- A file system in which every read yields `content`. -/
def fileWith (content : GoString) : GoString → Except GoString GoString :=
  fun _ => .ok content

/-- A decoder that yields `config` for every input. -/
def decodesTo {α : Type} (config : α) : GoString → Except GoString α :=
  fun _ => .ok config


/-! ## The walk and the command -/

/-- One write of the program: a text sent to the standard output or to the
error stream. -/
inductive Output where
  | stdout (text : GoString)
  | stderr (text : GoString)
  deriving DecidableEq

/-- The variables of `main` that the walk function captures: what has been
written so far, and the flag `hasErrors`. -/
structure RunState where
  out : List Output
  hasErrors : Bool
  deriving DecidableEq

/-- What the walk function reads of an `os.FileInfo`. -/
structure FileInfo where
  Name : GoString
  IsDir : Bool

/-- One call of the walk function by `filepath.Walk`: the path, the file
information, and the error of the traversal at that path (`none` when nil). -/
structure Visit where
  path : GoString
  info : FileInfo
  err : Option GoString

/-- What the command reads of its environment. `os.Args` is
`Program :: Arguments`; `Stat` gives the error of `os.Stat` (`none` when nil);
`Entries root` lists the calls that `filepath.Walk` makes for `root`, in
order, as long as the walk function returns no error. -/
structure World where
  Program : GoString
  Arguments : List GoString
  Join : List GoString → GoString
  Stat : GoString → Option GoString
  ReadFile : GoString → Except GoString GoString
  UnmarshalMarketplace : GoString → Except GoString MarketplaceConfig
  UnmarshalPlugin : GoString → Except GoString PluginConfig
  Entries : GoString → List Visit

/-- The function literal that `main` passes to `filepath.Walk`; the state it
captures is passed in and returned, next to the error it returns. -/
def walkFn (w : World) (st : RunState) (path : GoString) (info : FileInfo)
    (err : Option GoString) : RunState × Option GoString :=
  match err with
  | some e => (st, some e)
  | none =>
    if info.IsDir then (st, none)
    else if info.Name = str "plugin.json" then
      let out := st.out ++ [.stdout (str "Validating " ++ path ++ str "...\n")]
      match validatePlugin w.ReadFile w.UnmarshalPlugin path with
      | .error e =>
        ({ out := out ++ [.stderr (str "ERROR in " ++ path ++ str ": " ++ e ++ str "\n")],
           hasErrors := true }, none)
      | .ok _ =>
        ({ out := out ++ [.stdout (str "✓ " ++ path ++ str " is valid\n")],
           hasErrors := st.hasErrors }, none)
    else if HasSuffix info.Name (str ".md") then
      if Contains path (str "/agents/") || Contains path (str "/commands/") then
        let out := st.out ++ [.stdout (str "Validating " ++ path ++ str "...\n")]
        match validateYAMLFrontmatter w.ReadFile path with
        | .error e =>
          ({ out := out ++ [.stderr (str "ERROR in " ++ path ++ str ": " ++ e ++ str "\n")],
             hasErrors := true }, none)
        | .ok _ =>
          ({ out := out ++ [.stdout (str "✓ " ++ path ++ str " is valid\n")],
             hasErrors := st.hasErrors }, none)
      else (st, none)
    else (st, none)

/-- Go `filepath.Walk` over the calls it has to make: it calls the function
for each entry in order and stops at the first error the function returns,
which it returns. (The function of this program never returns `SkipDir` or
`SkipAll`.) -/
def Walk (fn : RunState → GoString → FileInfo → Option GoString → RunState × Option GoString) :
    List Visit → RunState → RunState × Option GoString
  | [], st => (st, none)
  | v :: rest, st =>
    match fn st v.path v.info v.err with
    | (st1, some e) => (st1, some e)
    | (st1, none) => Walk fn rest st1

/-- What a run of the command leaves: its writes in order and its exit
status. -/
structure Run where
  out : List Output
  exitCode : Nat
  deriving DecidableEq

/-- Go `main()`. -/
def main (w : World) : Run :=
  match w.Arguments with
  | [] => { out := [.stderr (str "Usage: " ++ w.Program ++ str " <path>\n")], exitCode := 1 }
  | rootPath :: _ =>
    let st0 : RunState := { out := [], hasErrors := false }
    -- Validate marketplace.json
    let marketplacePath := w.Join [rootPath, str ".claude-plugin", str "marketplace.json"]
    let st1 : RunState :=
      match w.Stat marketplacePath with
      | some _ => st0
      | none =>
        let out := st0.out ++ [.stdout (str "Validating " ++ marketplacePath ++ str "...\n")]
        match validateMarketplace w.ReadFile w.UnmarshalMarketplace marketplacePath with
        | .error e =>
          { out := out ++
              [.stderr (str "ERROR in " ++ marketplacePath ++ str ": " ++ e ++ str "\n")],
            hasErrors := true }
        | .ok _ =>
          { out := out ++ [.stdout (str "✓ " ++ marketplacePath ++ str " is valid\n")],
            hasErrors := st0.hasErrors }
    -- Find and validate all plugin.json files
    match Walk (walkFn w) (w.Entries (w.Join [rootPath, str "plugins"])) st1 with
    | (st2, some e) =>
      { out := st2.out ++ [.stderr (str "ERROR walking directory: " ++ e ++ str "\n")],
        exitCode := 1 }
    | (st2, none) =>
      if st2.hasErrors then { out := st2.out, exitCode := 1 }
      else { out := st2.out ++ [.stdout (str "\n✓ All validations passed!\n")], exitCode := 0 }

/-! ### The report of one file, in the words of the specification -/

/-- The validator that the walk hands a visited entry to, with its outcome:
the plugin validator for a regular file named `plugin.json`, the frontmatter
validator for a regular file whose name ends in `.md` and whose path contains
`/agents/` or `/commands/`, none otherwise. -/
def fileOutcome (w : World) (v : Visit) : Option (Except GoString Unit) :=
  if v.info.IsDir then none
  else if v.info.Name = str "plugin.json" then
    some (validatePlugin w.ReadFile w.UnmarshalPlugin v.path)
  else if HasSuffix v.info.Name (str ".md") &&
      (Contains v.path (str "/agents/") || Contains v.path (str "/commands/")) then
    some (validateYAMLFrontmatter w.ReadFile v.path)
  else none

/-- The line that reports the outcome of the validation of `path`: a success
line on the standard output or an error line on the error stream. -/
def resultLine (path : GoString) : Except GoString Unit → Output
  | .ok _ => .stdout (str "✓ " ++ path ++ str " is valid\n")
  | .error e => .stderr (str "ERROR in " ++ path ++ str ": " ++ e ++ str "\n")

/-- The writes for one validated file: the announcement and one result
line. -/
def reportLines (path : GoString) (outcome : Except GoString Unit) : List Output :=
  [.stdout (str "Validating " ++ path ++ str "...\n"), resultLine path outcome]

/-- The state after the report of one validated file: its two lines are
written and a failure raises the flag. -/
def reportFile (st : RunState) (path : GoString) (outcome : Except GoString Unit) :
    RunState :=
  { out := st.out ++ reportLines path outcome,
    hasErrors := st.hasErrors || !outcome.toBool }

/-- The writes of the walk for one visited entry. -/
def visitLines (w : World) (v : Visit) : List Output :=
  match fileOutcome w v with
  | none => []
  | some outcome => reportLines v.path outcome

/-- Whether the walk hands the entry to a validator that rejects it. -/
def fileFails (w : World) (v : Visit) : Bool :=
  match fileOutcome w v with
  | some (.error _) => true
  | _ => false

/-- The last line of a run without failure. -/
def successLine : Output := .stdout (str "\n✓ All validations passed!\n")

/-! ### A sample tree -/

/-- The tree of the end-to-end scenario, with one agent file added: the root
is `.` (so that `filepath.Join` joins the parts after the root with `/`),
every file exists, the marketplace descriptor is valid, the plugin descriptor
decodes to `plugin`, and every documentation file holds `doc`. The entries
are in the lexical order of `filepath.Walk`. -/
def sampleWorld (plugin : PluginConfig) (doc : GoString) : World :=
  { Program := str "validate",
    Arguments := [str "."],
    Join := fun parts => List.intercalate (str "/") parts.tail,
    Stat := fun _ => none,
    ReadFile := fun path => if HasSuffix path (str ".md") then .ok doc else .ok (str "{}"),
    UnmarshalMarketplace := decodesTo
      (marketplace (str "m") (str "a") (str "a@x.com") (str "1.0")
        [entry (str "p") (str "./plugins/p")]),
    UnmarshalPlugin := decodesTo plugin,
    Entries := fun root =>
      [ { path := root, info := { Name := str "plugins", IsDir := true }, err := none },
        { path := root ++ str "/p", info := { Name := str "p", IsDir := true }, err := none },
        { path := root ++ str "/p/LICENSE",
          info := { Name := str "LICENSE", IsDir := false }, err := none },
        { path := root ++ str "/p/agents",
          info := { Name := str "agents", IsDir := true }, err := none },
        { path := root ++ str "/p/agents/helper.md",
          info := { Name := str "helper.md", IsDir := false }, err := none },
        { path := root ++ str "/p/plugin.json",
          info := { Name := str "plugin.json", IsDir := false }, err := none } ] }

/-! ## Decoding a plugin descriptor

`json.Unmarshal(data, &config)` for a `PluginConfig`, after package
`encoding/json`: the data is checked and read as a JSON value, and the value is
stored into the struct member by member. A value that does not fit the Go type
of its field is recorded as an `UnmarshalTypeError`; decoding goes on, and the
first recorded error is returned at the end. -/

/-- Go `json.UnmarshalTypeError`: the description of the JSON value, the Go
type it could not be stored in, and the path of the field. -/
structure UnmarshalTypeError where
  Value : GoString
  GoType : GoString
  Field : List GoString
  deriving DecidableEq

/-- What the decoder takes from the Go library as given: `scan` checks the
data and reads it as a JSON value (or gives the text of the syntax error),
`foldName` is the case folding of member names, `parseFloat` tells whether
`strconv.ParseFloat(s, 64)` accepts a number literal, and `errorText` is the
method `Error` of `UnmarshalTypeError`. -/
structure JSONPackage where
  scan : GoString → Except GoString JSONValue
  foldName : GoString → GoString
  parseFloat : GoString → Bool
  errorText : UnmarshalTypeError → GoString

/-- The description of a JSON value in an `UnmarshalTypeError`. -/
def JSONValue.kind : JSONValue → GoString
  | .null => str "null"
  | .bool _ => str "bool"
  | .number _ => str "number"
  | .string _ => str "string"
  | .array _ => str "array"
  | .object _ => str "object"

/-- Go `decodeState.saveError`: only the first error is kept. -/
def saveError (saved : Option UnmarshalTypeError) (err : UnmarshalTypeError) :
    Option UnmarshalTypeError :=
  match saved with
  | none => some err
  | some first => some first

/-- The field that a member name selects among the JSON names of a struct: the
field of exactly that name, else the first field with the same folded name. -/
def findKey (lib : JSONPackage) (names : List GoString) (key : GoString) : Option GoString :=
  if key ∈ names then some key
  else names.find? (fun name => lib.foldName name == lib.foldName key)

/-- Storing a JSON value into a field of type `string`: a string is stored,
`null` leaves the field as it is, any other value is an error. -/
def storeString (field : List GoString) (target : GoString)
    (saved : Option UnmarshalTypeError) (v : JSONValue) :
    GoString × Option UnmarshalTypeError :=
  match v with
  | .string s => (s, saved)
  | .null => (target, saved)
  | other => (target, saveError saved { Value := other.kind, GoType := str "string", Field := field })

/-- Storing the items of a JSON array into the elements of a `[]string`. An
element that receives `null` is taken as empty. -/
def storeItems (field : List GoString) :
    Option UnmarshalTypeError → List JSONValue → List GoString × Option UnmarshalTypeError
  | saved, [] => ([], saved)
  | saved, item :: rest =>
    let first := storeString field [] saved item
    let others := storeItems field first.2 rest
    (first.1 :: others.1, others.2)

/-- Storing a JSON value into a field of type `[]string`: an array is stored
item by item, `null` empties the field, any other value is an error. -/
def storeStrings (field : List GoString) (target : List GoString)
    (saved : Option UnmarshalTypeError) (v : JSONValue) :
    List GoString × Option UnmarshalTypeError :=
  match v with
  | .array items => storeItems field saved items
  | .null => ([], saved)
  | other =>
    (target, saveError saved { Value := other.kind, GoType := str "[]string", Field := field })

mutual
/-- The first number literal of a JSON value, in the order of the text, that
does not convert to a `float64`. -/
def badNumber (parseFloat : GoString → Bool) : JSONValue → Option GoString
  | .number literal => if parseFloat literal then none else some literal
  | .array items => badNumberItems parseFloat items
  | .object members => badNumberMembers parseFloat members
  | _ => none
/-- The first such literal in the items of an array. -/
def badNumberItems (parseFloat : GoString → Bool) : List JSONValue → Option GoString
  | [] => none
  | v :: rest =>
    match badNumber parseFloat v with
    | some literal => some literal
    | none => badNumberItems parseFloat rest
/-- The first such literal in the members of an object. -/
def badNumberMembers (parseFloat : GoString → Bool) :
    List (GoString × JSONValue) → Option GoString
  | [] => none
  | (_, v) :: rest =>
    match badNumber parseFloat v with
    | some literal => some literal
    | none => badNumberMembers parseFloat rest
end

/-- Storing a JSON value into an `interface{}`: every value is accepted, and a
number literal that does not convert to a `float64` is an error. -/
def storeInterface (lib : JSONPackage) (field : List GoString)
    (saved : Option UnmarshalTypeError) (v : JSONValue) : Option UnmarshalTypeError :=
  match badNumber lib.parseFloat v with
  | none => saved
  | some literal =>
    saveError saved { Value := str "number " ++ literal, GoType := str "float64", Field := field }

/-- Storing the members of a JSON object into a `map[string]interface{}`: a
later member replaces an earlier one of the same name. -/
def storeMapMembers (lib : JSONPackage) (field : List GoString) :
    List (GoString × JSONValue) → Option UnmarshalTypeError → List (GoString × JSONValue) →
    List (GoString × JSONValue) × Option UnmarshalTypeError
  | target, saved, [] => (target, saved)
  | target, saved, (key, v) :: rest =>
    storeMapMembers lib field (target.filter (fun kv => kv.1 != key) ++ [(key, v)])
      (storeInterface lib field saved v) rest

/-- Storing a JSON value into a field of type `map[string]interface{}`: an
object is stored member by member, `null` empties the field, any other value
is an error. -/
def storeMap (lib : JSONPackage) (field : List GoString) (target : List (GoString × JSONValue))
    (saved : Option UnmarshalTypeError) (v : JSONValue) :
    List (GoString × JSONValue) × Option UnmarshalTypeError :=
  match v with
  | .object members => storeMapMembers lib field target saved members
  | .null => ([], saved)
  | other =>
    (target, saveError saved
      { Value := other.kind, GoType := str "map[string]interface {}", Field := field })

/-- The JSON names of the fields of `Owner`. -/
def ownerKeys : List GoString := [str "name", str "email", str "url"]

/-- Storing a JSON value into the field of an `Owner` that has the JSON name
`name`. -/
def storeOwnerField (field : List GoString) (name : GoString)
    (st : Owner × Option UnmarshalTypeError) (v : JSONValue) :
    Owner × Option UnmarshalTypeError :=
  if name = str "name" then
    let r := storeString (field ++ [name]) st.1.Name st.2 v
    ({ st.1 with Name := r.1 }, r.2)
  else if name = str "email" then
    let r := storeString (field ++ [name]) st.1.Email st.2 v
    ({ st.1 with Email := r.1 }, r.2)
  else
    let r := storeString (field ++ [name]) st.1.URL st.2 v
    ({ st.1 with URL := r.1 }, r.2)

/-- Storing one member of a JSON object into an `Owner`; a member that selects
no field is skipped. -/
def storeOwnerMember (lib : JSONPackage) (field : List GoString)
    (st : Owner × Option UnmarshalTypeError) (member : GoString × JSONValue) :
    Owner × Option UnmarshalTypeError :=
  match findKey lib ownerKeys member.1 with
  | none => st
  | some name => storeOwnerField field name st member.2

/-- Storing a JSON value into a field of type `Owner`: an object is stored
member by member, `null` leaves the field as it is, any other value is an
error. -/
def storeOwner (lib : JSONPackage) (field : List GoString) (target : Owner)
    (saved : Option UnmarshalTypeError) (v : JSONValue) : Owner × Option UnmarshalTypeError :=
  match v with
  | .object members => members.foldl (storeOwnerMember lib field) (target, saved)
  | .null => (target, saved)
  | other =>
    (target, saveError saved { Value := other.kind, GoType := str "main.Owner", Field := field })

/-- The JSON names of the fields of `PluginConfig`. -/
def pluginKeys : List GoString :=
  [str "name", str "displayName", str "description", str "version", str "author",
   str "license", str "repository", str "homepage", str "keywords", str "agents",
   str "commands", str "mcpServers"]

/-- Storing a JSON value into the field of a `PluginConfig` that has the JSON
name `name`. -/
def storePluginField (lib : JSONPackage) (name : GoString)
    (st : PluginConfig × Option UnmarshalTypeError) (v : JSONValue) :
    PluginConfig × Option UnmarshalTypeError :=
  if name = str "name" then
    let r := storeString [name] st.1.Name st.2 v
    ({ st.1 with Name := r.1 }, r.2)
  else if name = str "displayName" then
    let r := storeString [name] st.1.DisplayName st.2 v
    ({ st.1 with DisplayName := r.1 }, r.2)
  else if name = str "description" then
    let r := storeString [name] st.1.Description st.2 v
    ({ st.1 with Description := r.1 }, r.2)
  else if name = str "version" then
    let r := storeString [name] st.1.Version st.2 v
    ({ st.1 with Version := r.1 }, r.2)
  else if name = str "author" then
    let r := storeOwner lib [name] st.1.Author st.2 v
    ({ st.1 with Author := r.1 }, r.2)
  else if name = str "license" then
    let r := storeString [name] st.1.License st.2 v
    ({ st.1 with License := r.1 }, r.2)
  else if name = str "repository" then
    let r := storeString [name] st.1.Repository st.2 v
    ({ st.1 with Repository := r.1 }, r.2)
  else if name = str "homepage" then
    let r := storeString [name] st.1.Homepage st.2 v
    ({ st.1 with Homepage := r.1 }, r.2)
  else if name = str "keywords" then
    let r := storeStrings [name] st.1.Keywords st.2 v
    ({ st.1 with Keywords := r.1 }, r.2)
  else if name = str "agents" then
    let r := storeString [name] st.1.Agents st.2 v
    ({ st.1 with Agents := r.1 }, r.2)
  else if name = str "commands" then
    let r := storeString [name] st.1.Commands st.2 v
    ({ st.1 with Commands := r.1 }, r.2)
  else
    let r := storeMap lib [name] st.1.MCPServers st.2 v
    ({ st.1 with MCPServers := r.1 }, r.2)

/-- Storing one member of a JSON object into a `PluginConfig`; a member that
selects no field is skipped. -/
def storePluginMember (lib : JSONPackage) (st : PluginConfig × Option UnmarshalTypeError)
    (member : GoString × JSONValue) : PluginConfig × Option UnmarshalTypeError :=
  match findKey lib pluginKeys member.1 with
  | none => st
  | some name => storePluginField lib name st member.2

/-- The zero value of `PluginConfig`, as `var config PluginConfig` declares
it. -/
def zeroPluginConfig : PluginConfig := pluginConfig [] [] [] [] []

/-- Storing a JSON value into the `PluginConfig`: an object is stored member
by member, `null` leaves the struct as it is, any other value is an error. -/
def decodePluginConfig (lib : JSONPackage) (v : JSONValue) :
    PluginConfig × Option UnmarshalTypeError :=
  match v with
  | .object members => members.foldl (storePluginMember lib) (zeroPluginConfig, none)
  | .null => (zeroPluginConfig, none)
  | other =>
    (zeroPluginConfig,
      some { Value := other.kind, GoType := str "main.PluginConfig", Field := [] })

/-- Go `json.Unmarshal(data, &config)` for `config` of type `PluginConfig`. -/
def UnmarshalPluginConfig (lib : JSONPackage) (data : GoString) :
    Except GoString PluginConfig :=
  match lib.scan data with
  | .error err => .error err
  | .ok v =>
    match decodePluginConfig lib v with
    | (_, some err) => .error (lib.errorText err)
    | (config, none) => .ok config

/-! ### Plugin descriptors as JSON objects, in the words of the specification -/

/-- The keys of a plugin descriptor that the specification calls optional. -/
def optionalKeys : List GoString :=
  [str "displayName", str "license", str "repository", str "homepage", str "keywords",
   str "agents", str "commands", str "mcpServers"]

/-- A JSON object with the required keys of a plugin descriptor, each holding
a string, followed by the members `optional`. -/
def pluginObject (name description version authorName authorEmail : GoString)
    (optional : List (GoString × JSONValue)) : JSONValue :=
  .object
    ([(str "name", .string name), (str "description", .string description),
      (str "version", .string version),
      (str "author", .object [(str "name", .string authorName),
        (str "email", .string authorEmail)])] ++ optional)

/-- Whether a JSON value is a string or `null`. -/
def JSONValue.isStringOrNull : JSONValue → Bool
  | .string _ => true
  | .null => true
  | _ => false

/-- The string that a JSON value is, if it is one. -/
def JSONValue.stringValue : JSONValue → Option GoString
  | .string s => some s
  | _ => none

/-- The members of a JSON value that is an object; none for another value. -/
def JSONValue.objectMembers : JSONValue → List (GoString × JSONValue)
  | .object members => members
  | _ => []

/-- Whether a member of an `author` object is acceptable: it selects no field
of `Owner`, or it holds a string or `null`. -/
def fitsOwnerMember (lib : JSONPackage) (member : GoString × JSONValue) : Bool :=
  match findKey lib ownerKeys member.1 with
  | none => true
  | some _ => member.2.isStringOrNull

/-- Whether a JSON value has the Go type declared for the field of JSON name
`name` of `PluginConfig`, or is `null`: an array of strings for `keywords`, an
object whose numbers convert to `float64` for `mcpServers`, an object whose
members are acceptable for `author`, a string for the other fields. -/
def fitsField (lib : JSONPackage) (name : GoString) (v : JSONValue) : Bool :=
  if name = str "keywords" then
    match v with
    | .array items => items.all JSONValue.isStringOrNull
    | .null => true
    | _ => false
  else if name = str "mcpServers" then
    match v with
    | .object members => (badNumberMembers lib.parseFloat members).isNone
    | .null => true
    | _ => false
  else if name = str "author" then
    match v with
    | .object members => members.all (fitsOwnerMember lib)
    | .null => true
    | _ => false
  else v.isStringOrNull

/-- Whether a member of a plugin descriptor is acceptable: it selects no field
of `PluginConfig`, or its value fits the field it selects. -/
def fitsMember (lib : JSONPackage) (member : GoString × JSONValue) : Bool :=
  match findKey lib pluginKeys member.1 with
  | none => true
  | some name => fitsField lib name member.2

/-- The string that a member gives to the field of JSON name `name` of a
struct with the JSON names `names`: its value, when the member selects that
field and holds a string. -/
def givenTo (lib : JSONPackage) (names : List GoString) (name : GoString)
    (member : GoString × JSONValue) : Option GoString :=
  if findKey lib names member.1 = some name then member.2.stringValue else none

/-- The string that the members of an object give to a field: the one of the
last member that gives one, and the empty string when no member does. -/
def givenString (lib : JSONPackage) (names : List GoString) (name : GoString)
    (members : List (GoString × JSONValue)) : GoString :=
  ((members.filterMap (givenTo lib names name)).getLast?).getD []

/-- The members that an object gives to its author: those of every object
held by a member that selects the field `author`, in order. -/
def authorMembers (lib : JSONPackage) (members : List (GoString × JSONValue)) :
    List (GoString × JSONValue) :=
  members.flatMap (fun member =>
    if findKey lib pluginKeys member.1 = some (str "author") then member.2.objectMembers
    else [])

/-! ### A sample library -/

/-- The case folding of member names, on bytes: an ASCII letter goes to upper
case, and the two other runes that fold to an ASCII letter, U+017F and U+212A,
go to `S` and `K`. Other bytes are kept: no other rune folds to an ASCII
letter, so that the field selected among the ASCII names of this program is
the one that Go selects. -/
def foldASCII : GoString → GoString
  | 0xC5 :: 0xBF :: rest => 0x53 :: foldASCII rest
  | 0xE2 :: 0x84 :: 0xAA :: rest => 0x4B :: foldASCII rest
  | c :: rest => (if 97 ≤ c ∧ c ≤ 122 then c - 32 else c) :: foldASCII rest
  | [] => []

/-- The number that a sequence of decimal digits denotes. -/
def digitsValue (digits : GoString) : Nat :=
  digits.foldl (fun n c => 10 * n + (c.toNat - 48)) 0

/-- The least magnitude that does not convert to a finite `float64`:
`(2^54 - 1) * 2^970`, half way between the largest `float64` and `2^1024`. -/
def float64Limit : Nat :=
  179769313486231580793728971405303415079934132710037826936173778980444968292764750946649017977587207096330286416692887910946555547851940402630657488671505820681908902000708383676273854845817711531764475730270069855571366959622842914819860834936475292719074168444365510704342711559699508093042880177904174497792

/-- Whether `strconv.ParseFloat(s, 64)` accepts the JSON number literal `s`:
it rejects a literal exactly when its magnitude rounds to infinity, that is
when it reaches `float64Limit`. The literal is an optional `-`, digits, an
optional `.` with digits, and an optional exponent. -/
def convertsToFloat64 (literal : GoString) : Bool :=
  let unsigned := if literal.head? = some 45 then literal.drop 1 else literal
  let mantissa := unsigned.takeWhile (fun c => c != 101 && c != 69)
  let exponent := (unsigned.dropWhile (fun c => c != 101 && c != 69)).drop 1
  let whole := mantissa.takeWhile (fun c => c != 46)
  let fraction := (mantissa.dropWhile (fun c => c != 46)).drop 1
  let digits := digitsValue (whole ++ fraction)
  let power :=
    digitsValue (if exponent.head? = some 45 ∨ exponent.head? = some 43 then exponent.drop 1
      else exponent)
  if exponent.head? = some 45 then
    decide (digits < float64Limit * 10 ^ (power + fraction.length))
  else if fraction.length ≤ power then
    decide (digits * 10 ^ (power - fraction.length) < float64Limit)
  else
    decide (digits < float64Limit * 10 ^ (fraction.length - power))

/-- A library that reads every data as `value`, folds names with `foldASCII`
and converts numbers with `convertsToFloat64`. Its error text puts together
the three parts of the error; the wording of Go's own message is not
modelled. -/
def readsAs (value : JSONValue) : JSONPackage :=
  { scan := fun _ => .ok value,
    foldName := foldASCII,
    parseFloat := convertsToFloat64,
    errorText := fun err =>
      str "json: cannot unmarshal " ++ err.Value ++ str " into Go " ++
        (if err.Field = [] then str "value"
         else str "struct field " ++ List.intercalate (str ".") err.Field) ++
        str " of type " ++ err.GoType }

/-! ## Required fields of the marketplace descriptor -/

/-- The loop over the entries ends without error exactly when every entry
has a name and a source, from whatever index it is started. -/
theorem validatePluginEntries_ok_iff (i : Nat) (ps : List Plugin) :
    validatePluginEntries i ps = .ok () ↔ ∀ p ∈ ps, p.Name ≠ [] ∧ p.Source ≠ [] := by
  induction ps generalizing i with
  | nil => simp [validatePluginEntries]
  | cons p rest ih =>
    by_cases hn : p.Name = []
    · simp [validatePluginEntries, hn]
    · by_cases hs : p.Source = []
      · simp [validatePluginEntries, hn, hs]
      · simp [validatePluginEntries, hn, hs, ih]

/-- Once the file is read and decoded, the validator is its chain of field
checks. -/
theorem validateMarketplace_parsed (readFile : GoString → Except GoString GoString)
    (unmarshal : GoString → Except GoString MarketplaceConfig)
    (path data : GoString) (config : MarketplaceConfig)
    (hread : readFile path = .ok data) (hparse : unmarshal data = .ok config) :
    validateMarketplace readFile unmarshal path =
      if config.Name = [] then .error (str "name is required")
      else if config.Owner.Name = [] then .error (str "owner.name is required")
      else if config.Owner.Email = [] then .error (str "owner.email is required")
      else if config.Version = [] then .error (str "version is required")
      else if config.Plugins.length = 0 then
        .error (str "at least one plugin is required")
      else validatePluginEntries 0 config.Plugins := by
  simp only [validateMarketplace, hread, hparse]

/-- C1: on a parsed marketplace descriptor the field checks report the first
violated check in the order name, owner.name, owner.email, version, plugins
non-empty: when the k-th is empty and the earlier ones are not, the result is
the error of the k-th check, whatever the later fields and the entries hold. -/
theorem validateMarketplace_first_violation
    (readFile : GoString → Except GoString GoString)
    (unmarshal : GoString → Except GoString MarketplaceConfig)
    (path data : GoString) (config : MarketplaceConfig)
    (hread : readFile path = .ok data) (hparse : unmarshal data = .ok config) :
    (config.Name = [] →
      validateMarketplace readFile unmarshal path = .error (str "name is required")) ∧
    (config.Name ≠ [] → config.Owner.Name = [] →
      validateMarketplace readFile unmarshal path =
        .error (str "owner.name is required")) ∧
    (config.Name ≠ [] → config.Owner.Name ≠ [] → config.Owner.Email = [] →
      validateMarketplace readFile unmarshal path =
        .error (str "owner.email is required")) ∧
    (config.Name ≠ [] → config.Owner.Name ≠ [] → config.Owner.Email ≠ [] →
      config.Version = [] →
      validateMarketplace readFile unmarshal path =
        .error (str "version is required")) ∧
    (config.Name ≠ [] → config.Owner.Name ≠ [] → config.Owner.Email ≠ [] →
      config.Version ≠ [] → config.Plugins = [] →
      validateMarketplace readFile unmarshal path =
        .error (str "at least one plugin is required")) := by
  rw [validateMarketplace_parsed readFile unmarshal path data config hread hparse]
  refine ⟨?_, ?_, ?_, ?_, ?_⟩
  · intro h1; simp [h1]
  · intro h1 h2; simp [h1, h2]
  · intro h1 h2 h3; simp [h1, h2, h3]
  · intro h1 h2 h3 h4; simp [h1, h2, h3, h4]
  · intro h1 h2 h3 h4 h5; simp [h1, h2, h3, h4, h5]

/-- Witness of C1: a descriptor without owner.email, version and plugins is
reported for owner.email. -/
theorem validateMarketplace_first_violation_witness :
    (marketplace (str "m") (str "a") [] [] []).Name ≠ [] ∧
    (marketplace (str "m") (str "a") [] [] []).Owner.Name ≠ [] ∧
    (marketplace (str "m") (str "a") [] [] []).Owner.Email = [] ∧
    validateMarketplace (fileWith []) (decodesTo (marketplace (str "m") (str "a") [] [] []))
      (str ".claude-plugin/marketplace.json") = .error (str "owner.email is required") :=
  ⟨by decide, by decide, by decide,
    (validateMarketplace_first_violation (fileWith [])
      (decodesTo (marketplace (str "m") (str "a") [] [] []))
      (str ".claude-plugin/marketplace.json") [] _ rfl rfl).2.2.1
      (by decide) (by decide) (by decide)⟩

/-- C2: on a parsed marketplace descriptor the validator succeeds exactly when
name, owner.name, owner.email and version are non-empty, the plugins list is
non-empty and every entry has a non-empty name and a non-empty source. -/
theorem validateMarketplace_ok_iff
    (readFile : GoString → Except GoString GoString)
    (unmarshal : GoString → Except GoString MarketplaceConfig)
    (path data : GoString) (config : MarketplaceConfig)
    (hread : readFile path = .ok data) (hparse : unmarshal data = .ok config) :
    validateMarketplace readFile unmarshal path = .ok () ↔
      config.Name ≠ [] ∧ config.Owner.Name ≠ [] ∧ config.Owner.Email ≠ [] ∧
      config.Version ≠ [] ∧ config.Plugins ≠ [] ∧
      ∀ p ∈ config.Plugins, p.Name ≠ [] ∧ p.Source ≠ [] := by
  rw [validateMarketplace_parsed readFile unmarshal path data config hread hparse]
  by_cases h1 : config.Name = []
  · simp [h1]
  by_cases h2 : config.Owner.Name = []
  · simp [h1, h2]
  by_cases h3 : config.Owner.Email = []
  · simp [h1, h2, h3]
  by_cases h4 : config.Version = []
  · simp [h1, h2, h3, h4]
  by_cases h5 : config.Plugins = []
  · simp [h1, h2, h3, h4, h5]
  · simp [h1, h2, h3, h4, h5, validatePluginEntries_ok_iff]

/-- Witness of C2: the descriptor of the end-to-end scenario is valid. -/
theorem validateMarketplace_ok_iff_witness :
    (validateMarketplace (fileWith [])
        (decodesTo (marketplace (str "m") (str "a") (str "a@x.com") (str "1.0")
          [entry (str "p") (str "./plugins/p")]))
        (str ".claude-plugin/marketplace.json") = .ok () ↔
      (str "m") ≠ [] ∧ (str "a") ≠ [] ∧ (str "a@x.com") ≠ [] ∧ (str "1.0") ≠ [] ∧
      [entry (str "p") (str "./plugins/p")] ≠ [] ∧
      ∀ p ∈ [entry (str "p") (str "./plugins/p")], p.Name ≠ [] ∧ p.Source ≠ []) ∧
    validateMarketplace (fileWith [])
        (decodesTo (marketplace (str "m") (str "a") (str "a@x.com") (str "1.0")
          [entry (str "p") (str "./plugins/p")]))
        (str ".claude-plugin/marketplace.json") = .ok () :=
  ⟨validateMarketplace_ok_iff (fileWith []) _ (str ".claude-plugin/marketplace.json") []
      (marketplace (str "m") (str "a") (str "a@x.com") (str "1.0")
        [entry (str "p") (str "./plugins/p")]) rfl rfl,
    by decide⟩

/-- C3 fails as stated: a descriptor whose required fields are non-empty and
whose plugins list holds a valid entry followed by an entry without a name is
rejected for `plugin[1].name`. -/
theorem validateMarketplace_some_valid_entry_counterexample :
    (marketplace (str "m") (str "a") (str "a@x.com") (str "1.0")
        [entry (str "p") (str "./plugins/p"), entry [] []]).Name ≠ [] ∧
    (marketplace (str "m") (str "a") (str "a@x.com") (str "1.0")
        [entry (str "p") (str "./plugins/p"), entry [] []]).Owner.Name ≠ [] ∧
    (marketplace (str "m") (str "a") (str "a@x.com") (str "1.0")
        [entry (str "p") (str "./plugins/p"), entry [] []]).Owner.Email ≠ [] ∧
    (marketplace (str "m") (str "a") (str "a@x.com") (str "1.0")
        [entry (str "p") (str "./plugins/p"), entry [] []]).Version ≠ [] ∧
    (∃ p ∈ (marketplace (str "m") (str "a") (str "a@x.com") (str "1.0")
        [entry (str "p") (str "./plugins/p"), entry [] []]).Plugins,
      p.Name ≠ [] ∧ p.Source ≠ []) ∧
    validateMarketplace (fileWith [])
        (decodesTo (marketplace (str "m") (str "a") (str "a@x.com") (str "1.0")
          [entry (str "p") (str "./plugins/p"), entry [] []]))
        (str ".claude-plugin/marketplace.json") =
      .error (str "plugin[1].name is required") := by
  decide

/-- C3, amended: a parsed marketplace descriptor with non-empty name,
owner.name, owner.email and version whose plugins list is non-empty and whose
every entry has a non-empty name and a non-empty source is valid. -/
theorem validateMarketplace_succeeds
    (readFile : GoString → Except GoString GoString)
    (unmarshal : GoString → Except GoString MarketplaceConfig)
    (path data : GoString) (config : MarketplaceConfig)
    (hread : readFile path = .ok data) (hparse : unmarshal data = .ok config)
    (hname : config.Name ≠ []) (hownerName : config.Owner.Name ≠ [])
    (hownerEmail : config.Owner.Email ≠ []) (hversion : config.Version ≠ [])
    (hplugins : config.Plugins ≠ [])
    (hentries : ∀ p ∈ config.Plugins, p.Name ≠ [] ∧ p.Source ≠ []) :
    validateMarketplace readFile unmarshal path = .ok () := by
  rw [validateMarketplace_parsed readFile unmarshal path data config hread hparse]
  simp only [hname, hownerName, hownerEmail, hversion, if_false, List.length_eq_zero, hplugins]
  exact (validatePluginEntries_ok_iff 0 config.Plugins).mpr hentries

/-- Witness of C3 (amended): a descriptor with two valid entries. -/
theorem validateMarketplace_succeeds_witness :
    validateMarketplace (fileWith [])
        (decodesTo (marketplace (str "m") (str "a") (str "a@x.com") (str "1.0")
          [entry (str "p") (str "./plugins/p"), entry (str "q") (str "./plugins/q")]))
        (str ".claude-plugin/marketplace.json") = .ok () :=
  validateMarketplace_succeeds (fileWith []) _ (str ".claude-plugin/marketplace.json") []
    (marketplace (str "m") (str "a") (str "a@x.com") (str "1.0")
      [entry (str "p") (str "./plugins/p"), entry (str "q") (str "./plugins/q")])
    rfl rfl (by decide) (by decide) (by decide) (by decide) (List.cons_ne_nil _ _)
    (by decide)

/-- When some entry lacks a name or a source, the loop started at index `k`
stops at the first such entry `p`, at position `i` of the list, with the error
of index `k + i`: its name when the name is empty, its source otherwise. -/
theorem validatePluginEntries_first_bad (k : Nat) (ps : List Plugin)
    (hbad : ∃ p ∈ ps, p.Name = [] ∨ p.Source = []) :
    ∃ i p, ps[i]? = some p ∧ (p.Name = [] ∨ p.Source = []) ∧
      (∀ j q, j < i → ps[j]? = some q → q.Name ≠ [] ∧ q.Source ≠ []) ∧
      validatePluginEntries k ps =
        .error (if p.Name = [] then str "plugin[" ++ Itoa (k + i) ++ str "].name is required"
          else str "plugin[" ++ Itoa (k + i) ++ str "].source is required") := by
  induction ps generalizing k with
  | nil => simp at hbad
  | cons p rest ih =>
    by_cases hp : p.Name = [] ∨ p.Source = []
    · refine ⟨0, p, by simp, hp, by simp, ?_⟩
      by_cases hn : p.Name = []
      · simp [validatePluginEntries, hn]
      · have hs : p.Source = [] := hp.resolve_left hn
        simp [validatePluginEntries, hn, hs]
    · have hrest : ∃ q ∈ rest, q.Name = [] ∨ q.Source = [] := by
        obtain ⟨q, hq, hqb⟩ := hbad
        rcases List.mem_cons.mp hq with rfl | hq
        · exact absurd hqb hp
        · exact ⟨q, hq, hqb⟩
      obtain ⟨i, q, hi, hq, hmin, hres⟩ := ih (k + 1) hrest
      push_neg at hp
      refine ⟨i + 1, q, by simpa using hi, hq, ?_, ?_⟩
      · intro j r hj hr
        cases j with
        | zero => simp at hr; subst hr; exact hp
        | succ j => exact hmin j r (by omega) (by simpa using hr)
      · simp only [validatePluginEntries, hp.1, hp.2, if_false, hres]
        have : k + 1 + i = k + (i + 1) := by omega
        rw [this]

/-- C4: on a parsed marketplace descriptor whose name, owner.name, owner.email
and version are non-empty and whose plugins list has an entry with an empty
name or an empty source, the validator fails with the error of plugin[i] for
the smallest position i of such an entry: i is below the length of the list,
the entries before i are valid, and the error names plugin[i].name when that
entry has no name and plugin[i].source otherwise. -/
theorem validateMarketplace_first_bad_entry
    (readFile : GoString → Except GoString GoString)
    (unmarshal : GoString → Except GoString MarketplaceConfig)
    (path data : GoString) (config : MarketplaceConfig)
    (hread : readFile path = .ok data) (hparse : unmarshal data = .ok config)
    (hname : config.Name ≠ []) (hownerName : config.Owner.Name ≠ [])
    (hownerEmail : config.Owner.Email ≠ []) (hversion : config.Version ≠ [])
    (hbad : ∃ p ∈ config.Plugins, p.Name = [] ∨ p.Source = []) :
    ∃ i p, i < config.Plugins.length ∧ config.Plugins[i]? = some p ∧
      (p.Name = [] ∨ p.Source = []) ∧
      (∀ j q, j < i → config.Plugins[j]? = some q → q.Name ≠ [] ∧ q.Source ≠ []) ∧
      validateMarketplace readFile unmarshal path =
        .error (if p.Name = [] then str "plugin[" ++ Itoa i ++ str "].name is required"
          else str "plugin[" ++ Itoa i ++ str "].source is required") := by
  have hne : config.Plugins ≠ [] := by
    obtain ⟨p, hp, _⟩ := hbad
    exact List.ne_nil_of_mem hp
  obtain ⟨i, p, hi, hp, hmin, hres⟩ := validatePluginEntries_first_bad 0 config.Plugins hbad
  refine ⟨i, p, ?_, hi, hp, hmin, ?_⟩
  · by_contra hlt
    rw [List.getElem?_eq_none (by omega)] at hi
    exact Option.noConfusion hi
  · rw [validateMarketplace_parsed readFile unmarshal path data config hread hparse]
    simp only [hname, hownerName, hownerEmail, hversion, if_false, List.length_eq_zero, hne]
    simpa using hres

/-- Witness of C4: with a valid first entry and a second entry without a
source, some position carries the reported error. -/
theorem validateMarketplace_first_bad_entry_witness :
    (∃ p ∈ [entry (str "p") (str "./plugins/p"), entry (str "q") []],
      p.Name = [] ∨ p.Source = []) ∧
    ∃ i p, i < [entry (str "p") (str "./plugins/p"), entry (str "q") []].length ∧
      [entry (str "p") (str "./plugins/p"), entry (str "q") []][i]? = some p ∧
      (p.Name = [] ∨ p.Source = []) ∧
      (∀ j q, j < i →
        [entry (str "p") (str "./plugins/p"), entry (str "q") []][j]? = some q →
        q.Name ≠ [] ∧ q.Source ≠ []) ∧
      validateMarketplace (fileWith [])
          (decodesTo (marketplace (str "m") (str "a") (str "a@x.com") (str "1.0")
            [entry (str "p") (str "./plugins/p"), entry (str "q") []]))
          (str ".claude-plugin/marketplace.json") =
        .error (if p.Name = [] then str "plugin[" ++ Itoa i ++ str "].name is required"
          else str "plugin[" ++ Itoa i ++ str "].source is required") :=
  ⟨by decide,
    validateMarketplace_first_bad_entry (fileWith []) _
      (str ".claude-plugin/marketplace.json") []
      (marketplace (str "m") (str "a") (str "a@x.com") (str "1.0")
        [entry (str "p") (str "./plugins/p"), entry (str "q") []])
      rfl rfl (by decide) (by decide) (by decide) (by decide) (by decide)⟩

/-! ## Required fields of the plugin descriptor -/

/-- Once the file is read and decoded, the plugin validator is its chain of
field checks. -/
theorem validatePlugin_parsed (readFile : GoString → Except GoString GoString)
    (unmarshal : GoString → Except GoString PluginConfig)
    (path data : GoString) (config : PluginConfig)
    (hread : readFile path = .ok data) (hparse : unmarshal data = .ok config) :
    validatePlugin readFile unmarshal path =
      if config.Name = [] then .error (str "name is required")
      else if config.Description = [] then .error (str "description is required")
      else if config.Version = [] then .error (str "version is required")
      else if config.Author.Name = [] then .error (str "author.name is required")
      else if config.Author.Email = [] then .error (str "author.email is required")
      else .ok () := by
  simp only [validatePlugin, hread, hparse]

/-- C5: on a parsed plugin descriptor the validator succeeds exactly when name,
description, version, author.name and author.email are non-empty, and fails
otherwise with the error of the first empty field in that order. -/
theorem validatePlugin_first_missing
    (readFile : GoString → Except GoString GoString)
    (unmarshal : GoString → Except GoString PluginConfig)
    (path data : GoString) (config : PluginConfig)
    (hread : readFile path = .ok data) (hparse : unmarshal data = .ok config) :
    (validatePlugin readFile unmarshal path = .ok () ↔
      config.Name ≠ [] ∧ config.Description ≠ [] ∧ config.Version ≠ [] ∧
      config.Author.Name ≠ [] ∧ config.Author.Email ≠ []) ∧
    (config.Name = [] →
      validatePlugin readFile unmarshal path = .error (str "name is required")) ∧
    (config.Name ≠ [] → config.Description = [] →
      validatePlugin readFile unmarshal path =
        .error (str "description is required")) ∧
    (config.Name ≠ [] → config.Description ≠ [] → config.Version = [] →
      validatePlugin readFile unmarshal path = .error (str "version is required")) ∧
    (config.Name ≠ [] → config.Description ≠ [] → config.Version ≠ [] →
      config.Author.Name = [] →
      validatePlugin readFile unmarshal path =
        .error (str "author.name is required")) ∧
    (config.Name ≠ [] → config.Description ≠ [] → config.Version ≠ [] →
      config.Author.Name ≠ [] → config.Author.Email = [] →
      validatePlugin readFile unmarshal path =
        .error (str "author.email is required")) := by
  rw [validatePlugin_parsed readFile unmarshal path data config hread hparse]
  refine ⟨?_, ?_, ?_, ?_, ?_, ?_⟩
  · by_cases h1 : config.Name = []
    · simp [h1]
    by_cases h2 : config.Description = []
    · simp [h1, h2]
    by_cases h3 : config.Version = []
    · simp [h1, h2, h3]
    by_cases h4 : config.Author.Name = []
    · simp [h1, h2, h3, h4]
    by_cases h5 : config.Author.Email = []
    · simp [h1, h2, h3, h4, h5]
    · simp [h1, h2, h3, h4, h5]
  · intro h1; simp [h1]
  · intro h1 h2; simp [h1, h2]
  · intro h1 h2 h3; simp [h1, h2, h3]
  · intro h1 h2 h3 h4; simp [h1, h2, h3, h4]
  · intro h1 h2 h3 h4 h5; simp [h1, h2, h3, h4, h5]

/-- Witness of C5: the plugin descriptor of the end-to-end scenario with an
empty author.email fails with the author.email error. -/
theorem validatePlugin_first_missing_witness :
    (pluginConfig (str "p") (str "d") (str "1.0") (str "a") []).Author.Email = [] ∧
    validatePlugin (fileWith [])
        (decodesTo (pluginConfig (str "p") (str "d") (str "1.0") (str "a") []))
        (str "plugins/p/plugin.json") = .error (str "author.email is required") :=
  ⟨by decide,
    (validatePlugin_first_missing (fileWith []) _ (str "plugins/p/plugin.json") []
      (pluginConfig (str "p") (str "d") (str "1.0") (str "a") []) rfl rfl).2.2.2.2.2
      (by decide) (by decide) (by decide) (by decide) (by decide)⟩

/-! ## Package strings -/

/-- `HasPrefix` decides the relation "begins with". -/
theorem HasPrefix_iff (s p : GoString) : HasPrefix s p = true ↔ p <+: s := by
  constructor
  · intro h
    simp only [HasPrefix, Bool.and_eq_true, decide_eq_true_eq, beq_iff_eq] at h
    refine ⟨s.drop p.length, ?_⟩
    have := List.take_append_drop p.length s
    rw [h.2] at this
    exact this
  · rintro ⟨t, rfl⟩
    simp [HasPrefix]

/-- `Index` finds no occurrence exactly when there is none. -/
theorem Index_eq_none_iff (s p : GoString) : Index s p = none ↔ ¬ p <:+: s := by
  induction s with
  | nil =>
    unfold Index
    by_cases h : HasPrefix [] p = true
    · simp only [h, if_true]
      have := (HasPrefix_iff [] p).mp h
      simp [this.isInfix]
    · simp only [h]
      have hp : ¬ p <+: [] := fun hp => h ((HasPrefix_iff [] p).mpr hp)
      simp only [List.prefix_nil] at hp
      simp [hp]
  | cons c t ih =>
    unfold Index
    by_cases h : HasPrefix (c :: t) p = true
    · simp only [h, if_true]
      have := (HasPrefix_iff (c :: t) p).mp h
      simp [this.isInfix]
    · have hp : ¬ p <+: c :: t := fun hp => h ((HasPrefix_iff (c :: t) p).mpr hp)
      simp only [h, Bool.false_eq_true, if_false, Option.map_eq_none', List.infix_cons_iff, hp,
        false_or]
      exact ih

/-- The offset that `Index` returns is the start of an occurrence. -/
theorem Index_eq_some (s p : GoString) (m : Nat) (h : Index s p = some m) :
    m ≤ s.length ∧ p <+: s.drop m := by
  induction s generalizing m with
  | nil =>
    unfold Index at h
    by_cases hp : HasPrefix [] p = true
    · simp only [hp, if_true, Option.some.injEq] at h
      subst h
      exact ⟨Nat.le_refl _, (HasPrefix_iff [] p).mp hp⟩
    · simp [hp] at h
  | cons c t ih =>
    unfold Index at h
    by_cases hp : HasPrefix (c :: t) p = true
    · simp only [hp, if_true, Option.some.injEq] at h
      subst h
      exact ⟨Nat.zero_le _, (HasPrefix_iff (c :: t) p).mp hp⟩
    · simp only [hp] at h
      cases hk : Index t p with
      | none => simp [hk] at h
      | some k =>
      simp only [hk, Bool.false_eq_true, if_false, Option.map_some', Option.some.injEq] at h
      subst h
      have := ih k hk
      exact ⟨by simpa using this.1, by simpa using this.2⟩

/-- A string that begins with `p` has its first occurrence of `p` at 0. -/
theorem Index_of_prefix (s p : GoString) (h : p <+: s) : Index s p = some 0 := by
  unfold Index
  simp [(HasPrefix_iff s p).mpr h]

/-- `Contains` decides the relation "occurs in". -/
theorem Contains_iff (s p : GoString) : Contains s p = true ↔ p <:+: s := by
  unfold Contains
  rw [← not_iff_not, ← Index_eq_none_iff]
  cases Index s p <;> simp

/-- The delimiter is four bytes long. -/
theorem delim_length : delim.length = 4 := by decide

/-- The three-way split of a text that begins with the delimiter: an empty
first piece, then the rest cut at its first delimiter, if it has one. -/
theorem SplitN_delim (content : GoString) (h : delim <+: content) :
    SplitN content delim 3 (by decide) =
      [] :: (match Index (content.drop 4) delim with
        | none => [content.drop 4]
        | some m => [(content.drop 4).take m, (content.drop 4).drop (m + 4)]) := by
  have hlen : 4 ≤ content.length := by
    have := h.length_le
    rw [delim_length] at this
    exact this
  have h3 : ¬ 3 > content.length + 1 := by omega
  simp only [SplitN, genSplit, h3, if_false, genSplitLoop, Index_of_prefix content delim h,
    delim_length]
  simp only [Nat.reduceEqDiff, if_false]
  cases hI : Index (content.drop 4) delim <;> simp [genSplitLoop, hI]

/-- On a text that begins with the delimiter the validator succeeds when the
delimiter occurs again after the opening one, and reports an unclosed header
otherwise. -/
theorem validateYAMLFrontmatter_delim (readFile : GoString → Except GoString GoString)
    (path content : GoString) (hread : readFile path = .ok content)
    (h : delim <+: content) :
    validateYAMLFrontmatter readFile path =
      if delim <:+: content.drop 4 then .ok ()
      else .error (str "YAML frontmatter not properly closed") := by
  have hp : HasPrefix content delim = true := (HasPrefix_iff content delim).mpr h
  simp only [validateYAMLFrontmatter, hread, hp, Bool.not_true, Bool.false_eq_true, if_false,
    SplitN_delim content h]
  cases hI : Index (content.drop 4) delim with
  | none =>
    have := (Index_eq_none_iff _ _).mp hI
    simp [this]
  | some m =>
    have : delim <:+: content.drop 4 := by
      by_contra hc
      rw [(Index_eq_none_iff _ _).mpr hc] at hI
      exact Option.noConfusion hI
    simp [this]

/-! ## Header blocks of documentation files -/

/-- C6: for every path and every content that begins with the delimiter, the
validator fails with the unclosed-frontmatter error exactly when the text after
the opening four characters has no further occurrence of the delimiter, and
succeeds otherwise; a content made of delimiter, header, delimiter and body
succeeds for every header and body; and the split into at most three pieces
has fewer than three pieces exactly when there is no second occurrence. -/
theorem validateYAMLFrontmatter_closed_iff
    (readFile : GoString → Except GoString GoString) (path content : GoString)
    (hread : readFile path = .ok content) (hbegins : delim <+: content) :
    (validateYAMLFrontmatter readFile path =
        .error (str "YAML frontmatter not properly closed") ↔
      ¬ delim <:+: content.drop 4) ∧
    (validateYAMLFrontmatter readFile path = .ok () ↔ delim <:+: content.drop 4) ∧
    (∀ h b : GoString, content = delim ++ h ++ delim ++ b →
      validateYAMLFrontmatter readFile path = .ok ()) ∧
    ((SplitN content delim 3 (by decide)).length < 3 ↔ ¬ delim <:+: content.drop 4) := by
  have hv := validateYAMLFrontmatter_delim readFile path content hread hbegins
  refine ⟨?_, ?_, ?_, ?_⟩
  · rw [hv]
    by_cases hc : delim <:+: content.drop 4 <;> simp [hc]
  · rw [hv]
    by_cases hc : delim <:+: content.drop 4 <;> simp [hc]
  · intro h b hcontent
    have hc : delim <:+: content.drop 4 := by
      refine ⟨h, b, ?_⟩
      rw [hcontent]
      simp [List.append_assoc, List.drop_append_eq_append_drop, delim_length]
    rw [hv]
    simp [hc]
  · rw [SplitN_delim content hbegins]
    cases hI : Index (content.drop 4) delim with
    | none =>
      have := (Index_eq_none_iff _ _).mp hI
      simp [this]
    | some m =>
      have : delim <:+: content.drop 4 := by
        by_contra hc
        rw [(Index_eq_none_iff _ _).mpr hc] at hI
        exact Option.noConfusion hI
      simp [this]

/-- Witness of C6: a command file with a closed header, whose header text is
not examined. -/
theorem validateYAMLFrontmatter_closed_iff_witness :
    delim <+: str "---\nnot: [yaml\n---\nBody\n" ∧
    validateYAMLFrontmatter (fileWith (str "---\nnot: [yaml\n---\nBody\n"))
      (str "plugins/p/commands/run.md") = .ok () :=
  ⟨⟨str "not: [yaml\n---\nBody\n", by decide⟩,
    (validateYAMLFrontmatter_closed_iff (fileWith (str "---\nnot: [yaml\n---\nBody\n"))
      (str "plugins/p/commands/run.md") (str "---\nnot: [yaml\n---\nBody\n") rfl
      ⟨str "not: [yaml\n---\nBody\n", by decide⟩).2.2.1
      (str "not: [yaml\n") (str "Body\n") (by decide)⟩

/-- C7 fails as stated: an agents file below a commands directory, without a
header, is accepted. -/
theorem validateYAMLFrontmatter_agents_counterexample :
    str "agents" ∈ pathSegments (str "plugins/p/commands/agents/helper.md") ∧
    ¬ delim <+: str "# Helper\n" ∧
    validateYAMLFrontmatter (fileWith (str "# Helper\n"))
      (str "plugins/p/commands/agents/helper.md") = .ok () := by
  refine ⟨by decide, ?_, by decide⟩
  rw [← HasPrefix_iff]
  decide

/-- C7, amended: for every documentation file whose path does not contain the
text `/commands/` (so for every agents path without it) and whose content does
not begin with the header delimiter, the validator fails with the
missing-frontmatter error. -/
theorem validateYAMLFrontmatter_missing
    (readFile : GoString → Except GoString GoString) (path content : GoString)
    (hread : readFile path = .ok content) (hbegins : ¬ delim <+: content)
    (hcommands : ¬ str "/commands/" <:+: path) :
    validateYAMLFrontmatter readFile path = .error (str "missing YAML frontmatter") := by
  have hp : HasPrefix content delim = false := by
    rw [← Bool.not_eq_true, HasPrefix_iff]
    exact hbegins
  have hc : Contains path (str "/commands/") = false := by
    rw [← Bool.not_eq_true, Contains_iff]
    exact hcommands
  simp [validateYAMLFrontmatter, hread, hp, hc]

/-- Witness of C7 (amended): an agents file without a header. -/
theorem validateYAMLFrontmatter_missing_witness :
    str "agents" ∈ pathSegments (str "plugins/p/agents/helper.md") ∧
    validateYAMLFrontmatter (fileWith (str "# Helper\n"))
      (str "plugins/p/agents/helper.md") = .error (str "missing YAML frontmatter") :=
  ⟨by decide,
    validateYAMLFrontmatter_missing (fileWith (str "# Helper\n"))
      (str "plugins/p/agents/helper.md") (str "# Helper\n") rfl
      (by rw [← HasPrefix_iff]; decide) (by rw [← Contains_iff]; decide)⟩

/-- C8 fails as stated: when the `commands` segment is the first segment of
the path, it has no `/` before it and a file without a header is rejected. -/
theorem validateYAMLFrontmatter_commands_counterexample :
    str "commands" ∈ pathSegments (str "commands/plugins/p/agents/helper.md") ∧
    ¬ delim <+: str "# Helper\n" ∧
    validateYAMLFrontmatter (fileWith (str "# Helper\n"))
      (str "commands/plugins/p/agents/helper.md") =
        .error (str "missing YAML frontmatter") := by
  refine ⟨by decide, ?_, by decide⟩
  rw [← HasPrefix_iff]
  decide

/-- C8, amended: for every documentation file whose path contains the text
`/commands/` and whose content does not begin with the header delimiter, the
validator succeeds. -/
theorem validateYAMLFrontmatter_commands_optional
    (readFile : GoString → Except GoString GoString) (path content : GoString)
    (hread : readFile path = .ok content) (hbegins : ¬ delim <+: content)
    (hcommands : str "/commands/" <:+: path) :
    validateYAMLFrontmatter readFile path = .ok () := by
  have hp : HasPrefix content delim = false := by
    rw [← Bool.not_eq_true, HasPrefix_iff]
    exact hbegins
  have hc : Contains path (str "/commands/") = true := (Contains_iff _ _).mpr hcommands
  simp [validateYAMLFrontmatter, hread, hp, hc]

/-- Witness of C8 (amended): a command file without a header. -/
theorem validateYAMLFrontmatter_commands_optional_witness :
    str "commands" ∈ pathSegments (str "plugins/p/commands/run.md") ∧
    validateYAMLFrontmatter (fileWith (str "Run the checks.\n"))
      (str "plugins/p/commands/run.md") = .ok () :=
  ⟨by decide,
    validateYAMLFrontmatter_commands_optional (fileWith (str "Run the checks.\n"))
      (str "plugins/p/commands/run.md") (str "Run the checks.\n") rfl
      (by rw [← HasPrefix_iff]; decide) (by rw [← Contains_iff]; decide)⟩

/-- C9 fails as stated: a header whose closing delimiter ends a longer line is
accepted, although no line after the first is exactly `---`. -/
theorem validateYAMLFrontmatter_closing_line_counterexample :
    delim <+: str "---\ntitle: a ---\nbody\n" ∧
    validateYAMLFrontmatter (fileWith (str "---\ntitle: a ---\nbody\n"))
      (str "plugins/p/agents/helper.md") = .ok () ∧
    str "---" ∉ (lines (str "---\ntitle: a ---\nbody\n")).tail ∧
    ¬ ∃ j, 4 ≤ j ∧ delim <+: (str "---\ntitle: a ---\nbody\n").drop j ∧
      (str "---\ntitle: a ---\nbody\n")[j - 1]? = some 10 := by
  refine ⟨⟨str "title: a ---\nbody\n", by decide⟩, by decide, by decide, ?_⟩
  rintro ⟨j, hj, hocc, hnl⟩
  rw [← HasPrefix_iff] at hocc
  have hlt : j < 23 := by
    by_contra hge
    rw [List.drop_of_length_le (by
      have : (str "---\ntitle: a ---\nbody\n").length = 22 := by decide
      omega)] at hocc
    revert hocc
    decide
  interval_cases j <;> revert hocc hnl <;> decide

/-- C9, amended: whenever the validator succeeds on a content that begins with
the delimiter, the delimiter occurs again at some offset j >= 4; the character
before that occurrence need not be a line break. -/
theorem validateYAMLFrontmatter_closing_occurrence
    (readFile : GoString → Except GoString GoString) (path content : GoString)
    (hread : readFile path = .ok content) (hbegins : delim <+: content)
    (hok : validateYAMLFrontmatter readFile path = .ok ()) :
    ∃ j, 4 ≤ j ∧ j + 4 ≤ content.length ∧ delim <+: content.drop j := by
  rw [validateYAMLFrontmatter_delim readFile path content hread hbegins] at hok
  by_cases hc : delim <:+: content.drop 4
  · obtain ⟨a, b, hab⟩ := hc
    refine ⟨4 + a.length, by omega, ?_, b, ?_⟩
    · have hl := congrArg List.length hab
      simp only [List.length_append, delim_length, List.length_drop] at hl
      omega
    · rw [← List.drop_drop, ← hab]
      simp
  · simp [hc] at hok

/-- Witness of C9 (amended): the closing delimiter of a two-line header is at
offset 12. -/
theorem validateYAMLFrontmatter_closing_occurrence_witness :
    delim <+: str "---\nname: x\n---\nBody\n" ∧
    ∃ j, 4 ≤ j ∧ j + 4 ≤ (str "---\nname: x\n---\nBody\n").length ∧
      delim <+: (str "---\nname: x\n---\nBody\n").drop j :=
  ⟨⟨str "name: x\n---\nBody\n", by decide⟩,
    validateYAMLFrontmatter_closing_occurrence (fileWith (str "---\nname: x\n---\nBody\n"))
      (str "plugins/p/agents/helper.md") (str "---\nname: x\n---\nBody\n") rfl
      ⟨str "name: x\n---\nBody\n", by decide⟩ (by decide)⟩

/-- A line that is not the last one is followed by a line break in the text
that the lines make up. -/
theorem intercalate_line_break (ls : List GoString) (k : Nat) (x : GoString)
    (hx : ls[k]? = some x) (hk : k + 1 < ls.length) :
    x ++ [10] <:+: List.intercalate [10] ls := by
  induction ls generalizing k with
  | nil => simp at hk
  | cons a rest ih =>
    cases rest with
    | nil => simp at hk
    | cons b rest =>
      have hcons : List.intercalate [10] (a :: b :: rest) =
          a ++ [10] ++ List.intercalate [10] (b :: rest) := by
        simp [List.intercalate, List.intersperse]
      rw [hcons]
      cases k with
      | zero =>
        simp only [List.getElem?_cons_zero, Option.some.injEq] at hx
        subst hx
        exact ⟨[], List.intercalate [10] (b :: rest), by simp⟩
      | succ k =>
        have hx2 : (b :: rest)[k]? = some x := by simpa using hx
        have hk2 : k + 1 < (b :: rest).length := by simpa using hk
        obtain ⟨u, v, huv⟩ := ih k hx2 hk2
        exact ⟨a ++ [10] ++ u, v, by rw [← huv]; simp [List.append_assoc]⟩

/-- C10 fails as stated: a header closed by a last line `---` that has no
trailing line break is reported as not closed. -/
theorem validateYAMLFrontmatter_last_line_counterexample :
    (lines (str "---\nname: x\n---"))[0]? = some (str "---") ∧
    (∃ i, 0 < i ∧ (lines (str "---\nname: x\n---"))[i]? = some (str "---")) ∧
    validateYAMLFrontmatter (fileWith (str "---\nname: x\n---"))
      (str "plugins/p/agents/helper.md") =
        .error (str "YAML frontmatter not properly closed") :=
  ⟨by decide, ⟨2, by decide, by decide⟩, by decide⟩

/-- C10, amended: for every path and every content whose first line is exactly
`---` and which has a later line that is exactly `---` and is followed by a
line break (it is not the unterminated last line), the validator succeeds. -/
theorem validateYAMLFrontmatter_closing_line
    (readFile : GoString → Except GoString GoString) (path content : GoString)
    (hread : readFile path = .ok content)
    (hfirst : (lines content)[0]? = some (str "---"))
    (i : Nat) (hlater : 0 < i) (hline : (lines content)[i]? = some (str "---"))
    (hterminated : i + 1 < (lines content).length) :
    validateYAMLFrontmatter readFile path = .ok () := by
  have hcontent : List.intercalate [10] (lines content) = content :=
    List.intercalate_splitOn content 10
  cases hl : lines content with
  | nil => rw [hl] at hterminated; simp at hterminated
  | cons first rest =>
    rw [hl] at hfirst hline hterminated hcontent
    simp only [List.getElem?_cons_zero, Option.some.injEq] at hfirst
    subst hfirst
    obtain ⟨k, rfl⟩ : ∃ k, i = k + 1 := ⟨i - 1, by omega⟩
    have hx : rest[k]? = some (str "---") := by simpa using hline
    have hk : k + 1 < rest.length := by simpa using hterminated
    have hocc := intercalate_line_break rest k (str "---") hx hk
    cases rest with
    | nil => simp at hk
    | cons b rest =>
      have hcons : List.intercalate [10] (str "---" :: b :: rest) =
          delim ++ List.intercalate [10] (b :: rest) := by
        have : delim = str "---" ++ [10] := by decide
        rw [this]
        simp [List.intercalate, List.intersperse]
      rw [hcons] at hcontent
      have hbegins : delim <+: content := ⟨_, hcontent⟩
      rw [validateYAMLFrontmatter_delim readFile path content hread hbegins]
      have hdrop : content.drop 4 = List.intercalate [10] (b :: rest) := by
        rw [← hcontent, ← delim_length]
        simp
      have hd : delim = str "---" ++ [10] := by decide
      rw [hdrop, hd]
      simp [hocc]

/-- Witness of C10 (amended): a header closed by a terminated `---` line. -/
theorem validateYAMLFrontmatter_closing_line_witness :
    (lines (str "---\nname: x\n---\n"))[0]? = some (str "---") ∧
    (lines (str "---\nname: x\n---\n"))[2]? = some (str "---") ∧
    2 + 1 < (lines (str "---\nname: x\n---\n")).length ∧
    validateYAMLFrontmatter (fileWith (str "---\nname: x\n---\n"))
      (str "plugins/p/agents/helper.md") = .ok () :=
  ⟨by decide, by decide, by decide,
    validateYAMLFrontmatter_closing_line (fileWith (str "---\nname: x\n---\n"))
      (str "plugins/p/agents/helper.md") (str "---\nname: x\n---\n") rfl
      (by decide) 2 (by decide) (by decide) (by decide)⟩

/-! ## The walk -/

/-- `HasSuffix` decides the relation "ends in". -/
theorem HasSuffix_iff (s suf : GoString) : HasSuffix s suf = true ↔ suf <:+ s := by
  constructor
  · intro h
    simp only [HasSuffix, Bool.and_eq_true, decide_eq_true_eq, beq_iff_eq] at h
    rw [← h.2]
    exact List.drop_suffix _ _
  · rintro ⟨t, rfl⟩
    simp [HasSuffix]

/-- The walk function returns the traversal error it is called with, and
otherwise reports the entry according to `fileOutcome`. -/
theorem walkFn_eq (w : World) (st : RunState) (path : GoString) (info : FileInfo)
    (err : Option GoString) :
    walkFn w st path info err =
      match err with
      | some e => (st, some e)
      | none =>
        match fileOutcome w { path := path, info := info, err := none } with
        | none => (st, none)
        | some outcome => (reportFile st path outcome, none) := by
  cases err with
  | some e => rfl
  | none =>
    simp only [walkFn, fileOutcome]
    by_cases hd : info.IsDir = true
    · simp [hd]
    · by_cases hn : info.Name = str "plugin.json"
      · simp only [hd, hn, if_true, Bool.false_eq_true, if_false]
        cases validatePlugin w.ReadFile w.UnmarshalPlugin path <;>
          simp [reportFile, reportLines, resultLine, Except.toBool]
      · by_cases hs : HasSuffix info.Name (str ".md") = true
        · by_cases hc : (Contains path (str "/agents/") || Contains path (str "/commands/")) = true
          · simp only [hd, hn, hs, hc, if_true, Bool.false_eq_true, if_false, Bool.and_self]
            cases validateYAMLFrontmatter w.ReadFile path <;>
              simp [reportFile, reportLines, resultLine, Except.toBool]
          · simp [hd, hn, hs, hc]
        · simp [hd, hn, hs]

/-- Without traversal error the walk visits every entry: it returns no error
and writes the lines of each entry in order; the flag is raised exactly when
it was raised before or some validated entry fails. -/
theorem Walk_walkFn (w : World) (visits : List Visit) (st : RunState)
    (hvisits : ∀ v ∈ visits, v.err = none) :
    Walk (walkFn w) visits st =
      ({ out := st.out ++ visits.flatMap (visitLines w),
         hasErrors := st.hasErrors ||
           visits.any (fileFails w) }, none) := by
  induction visits generalizing st with
  | nil => simp [Walk]
  | cons v rest ih =>
    have hv : v.err = none := hvisits v (List.mem_cons_self _ _)
    have hrest : ∀ u ∈ rest, u.err = none := fun u hu => hvisits u (List.mem_cons_of_mem _ hu)
    have hvv : ({ path := v.path, info := v.info, err := none } : Visit) = v := by
      cases v; simp_all
    simp only [Walk, walkFn_eq, hv, hvv]
    cases ho : fileOutcome w v with
    | none =>
      simp [ih st hrest, List.flatMap_cons, visitLines, fileFails, ho]
    | some outcome =>
      simp only [ih _ hrest, List.flatMap_cons, visitLines, ho, List.any_cons, reportFile,
        List.append_assoc, fileFails]
      cases outcome <;> simp [Except.toBool, Bool.or_assoc]

/-- The walk returns an error exactly when some entry carries a traversal
error. -/
theorem Walk_error_iff (w : World) (visits : List Visit) (st : RunState) :
    (Walk (walkFn w) visits st).2 = none ↔ ∀ v ∈ visits, v.err = none := by
  induction visits generalizing st with
  | nil => simp [Walk]
  | cons v rest ih =>
    cases hv : v.err with
    | some e => simp [Walk, walkFn_eq, hv]
    | none =>
      simp only [Walk, walkFn_eq, hv, List.mem_cons, forall_eq_or_imp, true_and]
      cases fileOutcome w { path := v.path, info := v.info, err := none } <;> exact ih _

/-- No line of a report is the last line of a successful run. -/
theorem reportLines_ne_successLine (path : GoString) (outcome : Except GoString Unit) :
    successLine ∉ reportLines path outcome := by
  intro h
  simp only [reportLines, List.mem_cons, List.mem_singleton, List.not_mem_nil, or_false] at h
  rcases h with h | h
  · have hhead : (str "Validating " ++ path ++ str "...\n").head? = some 86 := rfl
    simp only [successLine, Output.stdout.injEq] at h
    rw [← h] at hhead
    exact absurd hhead (by decide)
  · cases outcome with
    | ok u =>
      have hhead : (str "✓ " ++ path ++ str " is valid\n").head? = some 226 := rfl
      simp only [successLine, resultLine, Output.stdout.injEq] at h
      rw [← h] at hhead
      exact absurd hhead (by decide)
    | error e => simp [successLine, resultLine] at h

/-- The walk never writes the last line of a successful run. -/
theorem Walk_no_successLine (w : World) (visits : List Visit) (st : RunState)
    (hst : successLine ∉ st.out) : successLine ∉ (Walk (walkFn w) visits st).1.out := by
  induction visits generalizing st with
  | nil => simpa [Walk] using hst
  | cons v rest ih =>
    cases hv : v.err with
    | some e => simpa [Walk, walkFn_eq, hv] using hst
    | none =>
      simp only [Walk, walkFn_eq, hv]
      cases fileOutcome w { path := v.path, info := v.info, err := none } with
      | none => exact ih _ hst
      | some outcome =>
        apply ih
        simp only [reportFile, List.mem_append, not_or]
        exact ⟨hst, reportLines_ne_successLine _ _⟩

/-- A report always writes: the state after it differs from the state before. -/
theorem reportFile_ne (st : RunState) (path : GoString) (outcome : Except GoString Unit) :
    reportFile st path outcome ≠ st := by
  intro h
  have := congrArg (fun s => s.out.length) h
  simp [reportFile, reportLines] at this

/-- C11 fails as stated: with the root directory `agents`, a file `notes.md`
has an `agents` path segment but no `/agents/` in its path, and no validator
is invoked on it. -/
theorem walkFn_dispatch_counterexample :
    str "notes.md" ≠ str "plugin.json" ∧
    str ".md" <:+ str "notes.md" ∧
    str "agents" ∈ pathSegments (str "agents/plugins/p/notes.md") ∧
    walkFn (sampleWorld (pluginConfig [] [] [] [] []) []) { out := [], hasErrors := false }
        (str "agents/plugins/p/notes.md") { Name := str "notes.md", IsDir := false } none =
      ({ out := [], hasErrors := false }, none) ∧
    walkFn (sampleWorld (pluginConfig [] [] [] [] []) []) { out := [], hasErrors := false }
        (str "agents/plugins/p/notes.md") { Name := str "notes.md", IsDir := false } none ≠
      (reportFile { out := [], hasErrors := false } (str "agents/plugins/p/notes.md")
        (validateYAMLFrontmatter (sampleWorld (pluginConfig [] [] [] [] []) []).ReadFile
          (str "agents/plugins/p/notes.md")), none) := by
  refine ⟨by decide, ?_, by decide, by decide, by decide⟩
  rw [← HasSuffix_iff]
  decide

/-- C11, amended: for every regular file visited by the walk with name n and
path p, exactly one of three things happens: if n is `plugin.json` the plugin
validator is invoked on p and its outcome is reported; else if n ends in `.md`
and p contains the text `/agents/` or `/commands/` the frontmatter validator is
invoked on p and its outcome is reported; otherwise the state is left as it
was, without report and without failure. A report always changes the state. -/
theorem walkFn_dispatch (w : World) (st : RunState) (path : GoString) (info : FileInfo)
    (hfile : info.IsDir = false) :
    (info.Name = str "plugin.json" →
      walkFn w st path info none =
        (reportFile st path (validatePlugin w.ReadFile w.UnmarshalPlugin path), none)) ∧
    (info.Name ≠ str "plugin.json" → str ".md" <:+ info.Name →
      (str "/agents/" <:+: path ∨ str "/commands/" <:+: path) →
      walkFn w st path info none =
        (reportFile st path (validateYAMLFrontmatter w.ReadFile path), none)) ∧
    (info.Name ≠ str "plugin.json" →
      ¬ (str ".md" <:+ info.Name ∧
        (str "/agents/" <:+: path ∨ str "/commands/" <:+: path)) →
      walkFn w st path info none = (st, none)) ∧
    (∀ outcome : Except GoString Unit, reportFile st path outcome ≠ st) := by
  refine ⟨?_, ?_, ?_, reportFile_ne st path⟩
  · intro hn
    simp [walkFn_eq, fileOutcome, hfile, hn]
  · intro hn hs hc
    have hs2 : HasSuffix info.Name (str ".md") = true := (HasSuffix_iff _ _).mpr hs
    have hc2 : (Contains path (str "/agents/") || Contains path (str "/commands/")) = true := by
      rw [Bool.or_eq_true, Contains_iff, Contains_iff]
      exact hc
    simp [walkFn_eq, fileOutcome, hfile, hn, hs2, hc2]
  · intro hn hnot
    have hc2 : (HasSuffix info.Name (str ".md") &&
        (Contains path (str "/agents/") || Contains path (str "/commands/"))) = false := by
      rw [← Bool.not_eq_true, Bool.and_eq_true, Bool.or_eq_true, HasSuffix_iff, Contains_iff,
        Contains_iff]
      exact hnot
    simp [walkFn_eq, fileOutcome, hfile, hn, hc2]

/-- Witness of C11 (amended): a `plugin.json` below an agents directory goes
to the plugin validator. -/
theorem walkFn_dispatch_witness :
    walkFn (sampleWorld (pluginConfig [] [] [] [] []) []) { out := [], hasErrors := false }
        (str "plugins/p/agents/plugin.json") { Name := str "plugin.json", IsDir := false }
        none =
      (reportFile { out := [], hasErrors := false } (str "plugins/p/agents/plugin.json")
        (validatePlugin (sampleWorld (pluginConfig [] [] [] [] []) []).ReadFile
          (sampleWorld (pluginConfig [] [] [] [] []) []).UnmarshalPlugin
          (str "plugins/p/agents/plugin.json")), none) :=
  (walkFn_dispatch (sampleWorld (pluginConfig [] [] [] [] []) [])
    { out := [], hasErrors := false } (str "plugins/p/agents/plugin.json")
    { Name := str "plugin.json", IsDir := false } rfl).1 rfl

/-- C13: a failed validation never stops the traversal. The walk function
returns exactly the traversal error it is called with, so no error for a
directory or a file whatever the validator says; and over visited entries
without traversal error the walk returns no error and writes, entry by entry
in visit order, the announcement and one result line (success or error) for
each entry that the dispatch rule hands to a validator, and nothing for the
others. -/
theorem Walk_reports_every_file (w : World) :
    (∀ st path info err, (walkFn w st path info err).2 = err) ∧
    (∀ visits st, (∀ v ∈ visits, v.err = none) →
      (Walk (walkFn w) visits st).2 = none ∧
      (Walk (walkFn w) visits st).1.out = st.out ++ visits.flatMap (visitLines w)) ∧
    (∀ v outcome, fileOutcome w v = some outcome →
      visitLines w v =
        [.stdout (str "Validating " ++ v.path ++ str "...\n"), resultLine v.path outcome]) ∧
    (∀ v, fileOutcome w v = none → visitLines w v = []) := by
  refine ⟨?_, ?_, ?_, ?_⟩
  · intro st path info err
    rw [walkFn_eq]
    cases err with
    | some e => rfl
    | none => cases fileOutcome w { path := path, info := info, err := none } <;> rfl
  · intro visits st hvisits
    rw [Walk_walkFn w visits st hvisits]
    exact ⟨rfl, rfl⟩
  · intro v outcome h
    simp [visitLines, h, reportLines]
  · intro v h
    simp [visitLines, h]

/-- Witness of C13: the `plugin.json` visited after a failing agent file is
still reported. -/
theorem Walk_reports_every_file_witness :
    (Walk (walkFn (sampleWorld
          (pluginConfig (str "p") (str "d") (str "1.0") (str "a") (str "a@x.com"))
          (str "# Helper\n")))
        ((sampleWorld (pluginConfig (str "p") (str "d") (str "1.0") (str "a") (str "a@x.com"))
          (str "# Helper\n")).Entries (str "plugins"))
        { out := [], hasErrors := false }).1.out =
      [.stdout (str "Validating plugins/p/agents/helper.md...\n"),
       .stderr (str "ERROR in plugins/p/agents/helper.md: missing YAML frontmatter\n"),
       .stdout (str "Validating plugins/p/plugin.json...\n"),
       .stdout (str "✓ plugins/p/plugin.json is valid\n")] :=
  (((Walk_reports_every_file
      (sampleWorld (pluginConfig (str "p") (str "d") (str "1.0") (str "a") (str "a@x.com"))
        (str "# Helper\n"))).2.1
    ((sampleWorld (pluginConfig (str "p") (str "d") (str "1.0") (str "a") (str "a@x.com"))
      (str "# Helper\n")).Entries (str "plugins"))
    { out := [], hasErrors := false } (by decide)).2).trans (by decide)

/-! ## The command -/

/-- The state of `main` before the walk: empty when `os.Stat` fails on the
marketplace descriptor, the report of its validation otherwise. -/
theorem main_eq (w : World) (rootPath : GoString) (rest : List GoString)
    (hargs : w.Arguments = rootPath :: rest) (st1 : RunState)
    (hst1 : st1 =
      match w.Stat (w.Join [rootPath, str ".claude-plugin", str "marketplace.json"]) with
      | some _ => { out := [], hasErrors := false }
      | none =>
        reportFile { out := [], hasErrors := false }
          (w.Join [rootPath, str ".claude-plugin", str "marketplace.json"])
          (validateMarketplace w.ReadFile w.UnmarshalMarketplace
            (w.Join [rootPath, str ".claude-plugin", str "marketplace.json"]))) :
    main w =
      match Walk (walkFn w) (w.Entries (w.Join [rootPath, str "plugins"])) st1 with
      | (st2, some e) =>
        { out := st2.out ++ [.stderr (str "ERROR walking directory: " ++ e ++ str "\n")],
          exitCode := 1 }
      | (st2, none) =>
        if st2.hasErrors then { out := st2.out, exitCode := 1 }
        else { out := st2.out ++ [successLine], exitCode := 0 } := by
  subst hst1
  simp only [main, hargs]
  cases w.Stat (w.Join [rootPath, str ".claude-plugin", str "marketplace.json"]) with
  | some e => rfl
  | none =>
    cases validateMarketplace w.ReadFile w.UnmarshalMarketplace
        (w.Join [rootPath, str ".claude-plugin", str "marketplace.json"]) <;> rfl

/-- The state before the walk does not hold the last line of a successful
run, and its flag is raised exactly when the marketplace descriptor exists and
is rejected. -/
theorem marketplace_state (w : World) (marketplacePath : GoString) (st1 : RunState)
    (hst1 : st1 =
      match w.Stat marketplacePath with
      | some _ => { out := [], hasErrors := false }
      | none =>
        reportFile { out := [], hasErrors := false } marketplacePath
          (validateMarketplace w.ReadFile w.UnmarshalMarketplace marketplacePath)) :
    successLine ∉ st1.out ∧
    (st1.hasErrors = false ↔
      (w.Stat marketplacePath = none →
        validateMarketplace w.ReadFile w.UnmarshalMarketplace marketplacePath = .ok ())) := by
  subst hst1
  cases w.Stat marketplacePath with
  | some e => simp
  | none =>
    refine ⟨?_, ?_⟩
    · simpa [reportFile] using reportLines_ne_successLine marketplacePath _
    · cases validateMarketplace w.ReadFile w.UnmarshalMarketplace marketplacePath <;>
        simp [reportFile, Except.toBool]

/-- No validated entry fails exactly when every outcome is a success. -/
theorem any_fileFails_eq_false (w : World) (visits : List Visit) :
    visits.any (fileFails w) = false ↔
      ∀ v ∈ visits, ∀ outcome, fileOutcome w v = some outcome → outcome = .ok () := by
  simp only [List.any_eq_false, fileFails]
  constructor
  · intro h v hv outcome ho
    have := h v hv
    rw [ho] at this
    cases outcome with
    | ok u => rfl
    | error e => simp at this
  · intro h v hv
    cases ho : fileOutcome w v with
    | none => simp
    | some outcome =>
      have := h v hv outcome ho
      subst this
      simp

/-- C12: in a run with a root path, the exit status is 0 exactly when the
walk reports no error, the marketplace descriptor is absent or valid, and
every file handed to a validator is valid; it is 1 otherwise; the final success
line is written exactly when the exit status is 0; and when the marketplace
descriptor is absent the run writes what the walk writes from an empty state,
followed by the closing write, and fails only for the walk. -/
theorem main_exit_status (w : World) (rootPath : GoString) (rest : List GoString)
    (marketplacePath : GoString) (visits : List Visit)
    (hargs : w.Arguments = rootPath :: rest)
    (hmarketplace :
      marketplacePath = w.Join [rootPath, str ".claude-plugin", str "marketplace.json"])
    (hvisits : visits = w.Entries (w.Join [rootPath, str "plugins"])) :
    ((main w).exitCode = 0 ↔
      (∀ v ∈ visits, v.err = none) ∧
      (w.Stat marketplacePath = none →
        validateMarketplace w.ReadFile w.UnmarshalMarketplace marketplacePath = .ok ()) ∧
      (∀ v ∈ visits, ∀ outcome, fileOutcome w v = some outcome → outcome = .ok ())) ∧
    ((main w).exitCode ≠ 0 → (main w).exitCode = 1) ∧
    (successLine ∈ (main w).out ↔ (main w).exitCode = 0) ∧
    (w.Stat marketplacePath ≠ none →
      (main w).out =
        (Walk (walkFn w) visits { out := [], hasErrors := false }).1.out ++
          (match (Walk (walkFn w) visits { out := [], hasErrors := false }).2 with
            | some e => [.stderr (str "ERROR walking directory: " ++ e ++ str "\n")]
            | none => if (main w).exitCode = 0 then [successLine] else []) ∧
      ((main w).exitCode = 0 ↔
        (∀ v ∈ visits, v.err = none) ∧
        (∀ v ∈ visits, ∀ outcome, fileOutcome w v = some outcome → outcome = .ok ()))) := by
  subst hmarketplace hvisits
  obtain ⟨st1, hst1⟩ : ∃ st1 : RunState, st1 =
      match w.Stat (w.Join [rootPath, str ".claude-plugin", str "marketplace.json"]) with
      | some _ => { out := [], hasErrors := false }
      | none =>
        reportFile { out := [], hasErrors := false }
          (w.Join [rootPath, str ".claude-plugin", str "marketplace.json"])
          (validateMarketplace w.ReadFile w.UnmarshalMarketplace
            (w.Join [rootPath, str ".claude-plugin", str "marketplace.json"])) := ⟨_, rfl⟩
  have hmain := main_eq w rootPath rest hargs st1 hst1
  obtain ⟨hno, hflag⟩ := marketplace_state w _ st1 hst1
  have hnoW := Walk_no_successLine w (w.Entries (w.Join [rootPath, str "plugins"])) st1 hno
  have herr := Walk_error_iff w (w.Entries (w.Join [rootPath, str "plugins"])) st1
  have hemp : st1 = { out := [], hasErrors := false } ∨
      w.Stat (w.Join [rootPath, str ".claude-plugin", str "marketplace.json"]) = none := by
    cases hs : w.Stat (w.Join [rootPath, str ".claude-plugin", str "marketplace.json"]) with
    | some e => left; rw [hst1, hs]
    | none => right; rfl
  by_cases hall : ∀ v ∈ w.Entries (w.Join [rootPath, str "plugins"]), v.err = none
  · have hW := Walk_walkFn w _ st1 hall
    rw [hW] at hmain hnoW
    simp only at hmain hnoW
    have hany := any_fileFails_eq_false w (w.Entries (w.Join [rootPath, str "plugins"]))
    by_cases hE : (st1.hasErrors ||
        (w.Entries (w.Join [rootPath, str "plugins"])).any (fileFails w)) = true
    · rw [if_pos hE] at hmain
      have hE2 := hE
      rw [Bool.or_eq_true] at hE2
      have hrhs : ¬ ((w.Stat (w.Join [rootPath, str ".claude-plugin", str "marketplace.json"]) = none →
          validateMarketplace w.ReadFile w.UnmarshalMarketplace
            (w.Join [rootPath, str ".claude-plugin", str "marketplace.json"]) = .ok ()) ∧
          (∀ v ∈ w.Entries (w.Join [rootPath, str "plugins"]), ∀ outcome,
            fileOutcome w v = some outcome → outcome = .ok ())) := by
        rintro ⟨h1, h2⟩
        rcases hE2 with h | h
        · rw [hflag.mpr h1] at h; exact Bool.noConfusion h
        · rw [hany.mpr h2] at h; exact Bool.noConfusion h
      refine ⟨?_, ?_, ?_, ?_⟩
      · rw [hmain]
        simp only [one_ne_zero, false_iff, not_and]
        intro _ h1 h2
        exact hrhs ⟨h1, h2⟩
      · intro _; rw [hmain]
      · rw [hmain]
        simp only [one_ne_zero, iff_false]
        exact hnoW
      · intro habsent
        rcases hemp with h | h
        · rw [h] at hmain hE2
          rw [Walk_walkFn w _ _ hall, hmain]
          simp only [List.nil_append, one_ne_zero, if_false, List.append_nil, false_iff,
            not_and, true_and]
          intro _ h2
          rcases hE2 with h3 | h3
          · exact Bool.noConfusion h3
          · rw [hany.mpr h2] at h3; exact Bool.noConfusion h3
        · exact absurd h habsent
    · rw [if_neg hE] at hmain
      have hE2 : st1.hasErrors = false ∧
          (w.Entries (w.Join [rootPath, str "plugins"])).any (fileFails w) = false := by
        rw [Bool.not_eq_true, Bool.or_eq_false_iff] at hE
        exact hE
      refine ⟨?_, ?_, ?_, ?_⟩
      · rw [hmain]
        simp only [true_iff]
        exact ⟨hall, hflag.mp hE2.1, hany.mp hE2.2⟩
      · intro h; rw [hmain] at h; exact absurd rfl h
      · rw [hmain]
        simp
      · intro habsent
        rcases hemp with h | h
        · rw [h] at hmain
          rw [Walk_walkFn w _ _ hall, hmain]
          simp only [List.nil_append, if_true, true_iff]
          exact ⟨trivial, hall, hany.mp hE2.2⟩
        · exact absurd h habsent
  · have hsome : (Walk (walkFn w) (w.Entries (w.Join [rootPath, str "plugins"])) st1).2 ≠ none :=
      fun h => hall (herr.mp h)
    obtain ⟨st2, oe, hW⟩ : ∃ st2 oe,
        Walk (walkFn w) (w.Entries (w.Join [rootPath, str "plugins"])) st1 = (st2, oe) :=
      ⟨_, _, rfl⟩
    rw [hW] at hmain hsome hnoW
    cases oe with
    | none => exact absurd rfl hsome
    | some e =>
      simp only at hmain hnoW
      refine ⟨?_, ?_, ?_, ?_⟩
      · rw [hmain]
        simp only [one_ne_zero, false_iff, not_and]
        intro h; exact absurd h hall
      · intro _; rw [hmain]
      · rw [hmain]
        simp only [one_ne_zero, iff_false, List.mem_append, List.mem_singleton, not_or]
        exact ⟨hnoW, by simp [successLine]⟩
      · intro habsent
        rcases hemp with h | h
        · rw [h] at hW
          rw [hW, hmain]
          simp only [one_ne_zero, false_iff, not_and, true_and]
          intro h; exact absurd h hall
        · exact absurd h habsent

/-- Witness of C12: the run on the sample tree with a valid plugin descriptor
ends with the success line. -/
theorem main_exit_status_witness :
    successLine ∈
      (main (sampleWorld (pluginConfig (str "p") (str "d") (str "1.0") (str "a") (str "a@x.com"))
        (str "---\nname: x\n---\nBody\n"))).out :=
  ((main_exit_status
      (sampleWorld (pluginConfig (str "p") (str "d") (str "1.0") (str "a") (str "a@x.com"))
        (str "---\nname: x\n---\nBody\n"))
      (str ".") [] _ _ rfl rfl rfl).2.2.1).mpr (by decide)

/-! ## Decoding a plugin descriptor -/

/-- The field that a member name selects is one of the names. -/
theorem findKey_mem (lib : JSONPackage) (names : List GoString) (key name : GoString)
    (h : findKey lib names key = some name) : name ∈ names := by
  unfold findKey at h
  by_cases hk : key ∈ names
  · simp only [hk, if_true, Option.some.injEq] at h
    exact h ▸ hk
  · simp only [hk, if_false] at h
    exact List.mem_of_find?_eq_some h

/-- An error already recorded is kept. -/
theorem saveError_some (first err : UnmarshalTypeError) :
    saveError (some first) err = some first := rfl

/-- A string field records no error exactly when none was recorded before and
the value is a string or `null`. -/
theorem storeString_saved (field : List GoString) (target : GoString)
    (saved : Option UnmarshalTypeError) (v : JSONValue) :
    (storeString field target saved v).2 = none ↔
      saved = none ∧ v.isStringOrNull = true := by
  cases v <;> cases saved <;> simp [storeString, saveError, JSONValue.isStringOrNull]

/-- The string left in a string field: the value when it is a string, the
former content otherwise. -/
theorem storeString_value (field : List GoString) (target : GoString)
    (saved : Option UnmarshalTypeError) (v : JSONValue) :
    (storeString field target saved v).1 = v.stringValue.getD target := by
  cases v <;> rfl

/-- The elements of a slice record no error exactly when none was recorded
before and every item is a string or `null`. -/
theorem storeItems_saved (field : List GoString) (saved : Option UnmarshalTypeError)
    (items : List JSONValue) :
    (storeItems field saved items).2 = none ↔
      saved = none ∧ items.all JSONValue.isStringOrNull = true := by
  induction items generalizing saved with
  | nil => simp [storeItems]
  | cons item rest ih =>
    simp only [storeItems, ih, storeString_saved, List.all_cons, Bool.and_eq_true]
    tauto

/-- The conversion to `interface{}` records no error exactly when none was
recorded before and every number converts. -/
theorem storeInterface_saved (lib : JSONPackage) (field : List GoString)
    (saved : Option UnmarshalTypeError) (v : JSONValue) :
    storeInterface lib field saved v = none ↔
      saved = none ∧ badNumber lib.parseFloat v = none := by
  unfold storeInterface
  cases badNumber lib.parseFloat v <;> cases saved <;> simp [saveError]

/-- The members of a map record no error exactly when none was recorded before
and every number in them converts. -/
theorem storeMapMembers_saved (lib : JSONPackage) (field : List GoString)
    (target : List (GoString × JSONValue)) (saved : Option UnmarshalTypeError)
    (members : List (GoString × JSONValue)) :
    (storeMapMembers lib field target saved members).2 = none ↔
      saved = none ∧ badNumberMembers lib.parseFloat members = none := by
  induction members generalizing target saved with
  | nil => simp [storeMapMembers, badNumberMembers]
  | cons member rest ih =>
    obtain ⟨key, v⟩ := member
    simp only [storeMapMembers, ih, storeInterface_saved, badNumberMembers]
    cases badNumber lib.parseFloat v <;> simp

/-- A member of an `author` object records no error exactly when none was
recorded before and the member is acceptable. -/
theorem storeOwnerMember_saved (lib : JSONPackage) (field : List GoString)
    (st : Owner × Option UnmarshalTypeError) (member : GoString × JSONValue) :
    (storeOwnerMember lib field st member).2 = none ↔
      st.2 = none ∧ fitsOwnerMember lib member = true := by
  unfold storeOwnerMember fitsOwnerMember
  cases findKey lib ownerKeys member.1 with
  | none => simp
  | some name =>
    simp only [storeOwnerField]
    split_ifs <;> exact storeString_saved _ _ _ _

/-- The members of an `author` object record no error exactly when none was
recorded before and every member is acceptable. -/
theorem storeOwnerMembers_saved (lib : JSONPackage) (field : List GoString)
    (st : Owner × Option UnmarshalTypeError) (members : List (GoString × JSONValue)) :
    (members.foldl (storeOwnerMember lib field) st).2 = none ↔
      st.2 = none ∧ members.all (fitsOwnerMember lib) = true := by
  induction members generalizing st with
  | nil => simp
  | cons member rest ih =>
    simp only [List.foldl_cons, ih, storeOwnerMember_saved, List.all_cons, Bool.and_eq_true]
    tauto

/-- A field of a plugin descriptor records no error exactly when none was
recorded before and the value fits the field. -/
theorem storePluginField_saved (lib : JSONPackage) (name : GoString)
    (hname : name ∈ pluginKeys) (st : PluginConfig × Option UnmarshalTypeError)
    (v : JSONValue) :
    (storePluginField lib name st v).2 = none ↔
      st.2 = none ∧ fitsField lib name v = true := by
  simp only [pluginKeys, List.mem_cons, List.mem_singleton, List.not_mem_nil, or_false]
    at hname
  rcases hname with rfl | rfl | rfl | rfl | rfl | rfl | rfl | rfl | rfl | rfl | rfl | rfl
  · exact storeString_saved [str "name"] st.1.Name st.2 v
  · exact storeString_saved [str "displayName"] st.1.DisplayName st.2 v
  · exact storeString_saved [str "description"] st.1.Description st.2 v
  · exact storeString_saved [str "version"] st.1.Version st.2 v
  · show (storeOwner lib [str "author"] st.1.Author st.2 v).2 = none ↔
      st.2 = none ∧ (match v with
        | .object members => members.all (fitsOwnerMember lib)
        | .null => true
        | _ => false) = true
    cases v with
    | object members => exact storeOwnerMembers_saved lib _ _ members
    | null => simp [storeOwner]
    | bool b => cases h : st.2 <;> simp [storeOwner, saveError, h]
    | number literal => cases h : st.2 <;> simp [storeOwner, saveError, h]
    | string s => cases h : st.2 <;> simp [storeOwner, saveError, h]
    | array items => cases h : st.2 <;> simp [storeOwner, saveError, h]
  · exact storeString_saved [str "license"] st.1.License st.2 v
  · exact storeString_saved [str "repository"] st.1.Repository st.2 v
  · exact storeString_saved [str "homepage"] st.1.Homepage st.2 v
  · show (storeStrings [str "keywords"] st.1.Keywords st.2 v).2 = none ↔
      st.2 = none ∧ (match v with
        | .array items => items.all JSONValue.isStringOrNull
        | .null => true
        | _ => false) = true
    cases v with
    | array items => exact storeItems_saved _ _ items
    | null => simp [storeStrings]
    | bool b => cases h : st.2 <;> simp [storeStrings, saveError, h]
    | number literal => cases h : st.2 <;> simp [storeStrings, saveError, h]
    | string s => cases h : st.2 <;> simp [storeStrings, saveError, h]
    | object members => cases h : st.2 <;> simp [storeStrings, saveError, h]
  · exact storeString_saved [str "agents"] st.1.Agents st.2 v
  · exact storeString_saved [str "commands"] st.1.Commands st.2 v
  · show (storeMap lib [str "mcpServers"] st.1.MCPServers st.2 v).2 = none ↔
      st.2 = none ∧ (match v with
        | .object members => (badNumberMembers lib.parseFloat members).isNone
        | .null => true
        | _ => false) = true
    cases v with
    | object members =>
      simp only [storeMap, storeMapMembers_saved, Option.isNone_iff_eq_none]
    | null => simp [storeMap]
    | bool b => cases h : st.2 <;> simp [storeMap, saveError, h]
    | number literal => cases h : st.2 <;> simp [storeMap, saveError, h]
    | string s => cases h : st.2 <;> simp [storeMap, saveError, h]
    | array items => cases h : st.2 <;> simp [storeMap, saveError, h]

/-- A member of a plugin descriptor records no error exactly when none was
recorded before and the member is acceptable. -/
theorem storePluginMember_saved (lib : JSONPackage)
    (st : PluginConfig × Option UnmarshalTypeError) (member : GoString × JSONValue) :
    (storePluginMember lib st member).2 = none ↔
      st.2 = none ∧ fitsMember lib member = true := by
  unfold storePluginMember fitsMember
  cases h : findKey lib pluginKeys member.1 with
  | none => simp
  | some name =>
    exact storePluginField_saved lib name (findKey_mem lib pluginKeys member.1 name h) st member.2

/-- The members of a plugin descriptor record no error exactly when none was
recorded before and every member is acceptable. -/
theorem storePluginMembers_saved (lib : JSONPackage)
    (st : PluginConfig × Option UnmarshalTypeError) (members : List (GoString × JSONValue)) :
    (members.foldl (storePluginMember lib) st).2 = none ↔
      st.2 = none ∧ ∀ member ∈ members, fitsMember lib member = true := by
  induction members generalizing st with
  | nil => simp
  | cons member rest ih =>
    simp only [List.foldl_cons, ih, storePluginMember_saved, List.mem_cons, forall_eq_or_imp]
    tauto

/-- The last of the strings given by a member followed by further members. -/
theorem getLast_filterMap_cons (f : GoString × JSONValue → Option GoString)
    (member : GoString × JSONValue) (rest : List (GoString × JSONValue)) (d : GoString) :
    (((member :: rest).filterMap f).getLast?).getD d =
      ((rest.filterMap f).getLast?).getD ((f member).getD d) := by
  cases h : f member with
  | none => simp [List.filterMap_cons, h]
  | some s =>
    simp only [List.filterMap_cons, h, List.getLast?_cons, Option.getD_some]

/-- The last of the strings given by members followed by further members. -/
theorem getLast_filterMap_append (f : GoString × JSONValue → Option GoString)
    (first rest : List (GoString × JSONValue)) (d : GoString) :
    (((first ++ rest).filterMap f).getLast?).getD d =
      ((rest.filterMap f).getLast?).getD (((first.filterMap f).getLast?).getD d) := by
  induction first generalizing d with
  | nil => simp
  | cons member first ih =>
    rw [List.cons_append, getLast_filterMap_cons, ih, getLast_filterMap_cons]

/-- The name and the email that a member of an `author` object leaves: the
string it gives, or the former content. -/
theorem storeOwnerMember_value (lib : JSONPackage) (field : List GoString)
    (st : Owner × Option UnmarshalTypeError) (member : GoString × JSONValue) :
    (storeOwnerMember lib field st member).1.Name =
      (givenTo lib ownerKeys (str "name") member).getD st.1.Name ∧
    (storeOwnerMember lib field st member).1.Email =
      (givenTo lib ownerKeys (str "email") member).getD st.1.Email := by
  unfold storeOwnerMember givenTo
  cases h : findKey lib ownerKeys member.1 with
  | none => simp
  | some name =>
    have hname := findKey_mem lib ownerKeys member.1 name h
    simp only [ownerKeys, List.mem_cons, List.mem_singleton, List.not_mem_nil, or_false]
      at hname
    rcases hname with rfl | rfl | rfl
    · exact ⟨storeString_value _ _ _ _, rfl⟩
    · exact ⟨rfl, storeString_value _ _ _ _⟩
    · exact ⟨rfl, rfl⟩

/-- The name and the email that the members of an `author` object leave: the
last string given to each, or the former content. -/
theorem storeOwnerMembers_value (lib : JSONPackage) (field : List GoString)
    (st : Owner × Option UnmarshalTypeError) (members : List (GoString × JSONValue)) :
    (members.foldl (storeOwnerMember lib field) st).1.Name =
      ((members.filterMap (givenTo lib ownerKeys (str "name"))).getLast?).getD st.1.Name ∧
    (members.foldl (storeOwnerMember lib field) st).1.Email =
      ((members.filterMap (givenTo lib ownerKeys (str "email"))).getLast?).getD st.1.Email := by
  induction members generalizing st with
  | nil => simp
  | cons member rest ih =>
    obtain ⟨h1, h2⟩ := storeOwnerMember_value lib field st member
    obtain ⟨k1, k2⟩ := ih (storeOwnerMember lib field st member)
    simp only [List.foldl_cons, getLast_filterMap_cons]
    exact ⟨k1.trans (by rw [h1]), k2.trans (by rw [h2])⟩

/-- The name and the email that a value stored into an `Owner` leaves. -/
theorem storeOwner_value (lib : JSONPackage) (field : List GoString) (target : Owner)
    (saved : Option UnmarshalTypeError) (v : JSONValue) :
    (storeOwner lib field target saved v).1.Name =
      ((v.objectMembers.filterMap (givenTo lib ownerKeys (str "name"))).getLast?).getD
        target.Name ∧
    (storeOwner lib field target saved v).1.Email =
      ((v.objectMembers.filterMap (givenTo lib ownerKeys (str "email"))).getLast?).getD
        target.Email := by
  cases v with
  | object members => exact storeOwnerMembers_value lib field (target, saved) members
  | null => exact ⟨rfl, rfl⟩
  | bool b => exact ⟨rfl, rfl⟩
  | number literal => exact ⟨rfl, rfl⟩
  | string s => exact ⟨rfl, rfl⟩
  | array items => exact ⟨rfl, rfl⟩

/-- The required fields that a member of a plugin descriptor leaves: the
string it gives to name, description and version, the strings that the object
it gives to the author holds for the name and the email of the author, or the
former content. -/
theorem storePluginMember_value (lib : JSONPackage)
    (st : PluginConfig × Option UnmarshalTypeError) (member : GoString × JSONValue) :
    (storePluginMember lib st member).1.Name =
      (givenTo lib pluginKeys (str "name") member).getD st.1.Name ∧
    (storePluginMember lib st member).1.Description =
      (givenTo lib pluginKeys (str "description") member).getD st.1.Description ∧
    (storePluginMember lib st member).1.Version =
      (givenTo lib pluginKeys (str "version") member).getD st.1.Version ∧
    (storePluginMember lib st member).1.Author.Name =
      (((authorMembers lib [member]).filterMap (givenTo lib ownerKeys (str "name"))).getLast?).getD
        st.1.Author.Name ∧
    (storePluginMember lib st member).1.Author.Email =
      (((authorMembers lib [member]).filterMap
        (givenTo lib ownerKeys (str "email"))).getLast?).getD st.1.Author.Email := by
  unfold storePluginMember givenTo authorMembers
  simp only [List.flatMap_cons, List.flatMap_nil, List.append_nil]
  cases h : findKey lib pluginKeys member.1 with
  | none => simp
  | some name =>
    have hname := findKey_mem lib pluginKeys member.1 name h
    simp only [pluginKeys, List.mem_cons, List.mem_singleton, List.not_mem_nil, or_false]
      at hname
    rcases hname with rfl | rfl | rfl | rfl | rfl | rfl | rfl | rfl | rfl | rfl | rfl | rfl
    · exact ⟨storeString_value _ _ _ _, rfl, rfl, rfl, rfl⟩
    · exact ⟨rfl, rfl, rfl, rfl, rfl⟩
    · exact ⟨rfl, storeString_value _ _ _ _, rfl, rfl, rfl⟩
    · exact ⟨rfl, rfl, storeString_value _ _ _ _, rfl, rfl⟩
    · exact ⟨rfl, rfl, rfl, (storeOwner_value lib _ _ _ _).1, (storeOwner_value lib _ _ _ _).2⟩
    · exact ⟨rfl, rfl, rfl, rfl, rfl⟩
    · exact ⟨rfl, rfl, rfl, rfl, rfl⟩
    · exact ⟨rfl, rfl, rfl, rfl, rfl⟩
    · exact ⟨rfl, rfl, rfl, rfl, rfl⟩
    · exact ⟨rfl, rfl, rfl, rfl, rfl⟩
    · exact ⟨rfl, rfl, rfl, rfl, rfl⟩
    · exact ⟨rfl, rfl, rfl, rfl, rfl⟩

/-- The required fields that the members of a plugin descriptor leave: the
last string given to each, or the former content. -/
theorem storePluginMembers_value (lib : JSONPackage)
    (st : PluginConfig × Option UnmarshalTypeError) (members : List (GoString × JSONValue)) :
    (members.foldl (storePluginMember lib) st).1.Name =
      ((members.filterMap (givenTo lib pluginKeys (str "name"))).getLast?).getD st.1.Name ∧
    (members.foldl (storePluginMember lib) st).1.Description =
      ((members.filterMap (givenTo lib pluginKeys (str "description"))).getLast?).getD
        st.1.Description ∧
    (members.foldl (storePluginMember lib) st).1.Version =
      ((members.filterMap (givenTo lib pluginKeys (str "version"))).getLast?).getD
        st.1.Version ∧
    (members.foldl (storePluginMember lib) st).1.Author.Name =
      (((authorMembers lib members).filterMap (givenTo lib ownerKeys (str "name"))).getLast?).getD
        st.1.Author.Name ∧
    (members.foldl (storePluginMember lib) st).1.Author.Email =
      (((authorMembers lib members).filterMap
        (givenTo lib ownerKeys (str "email"))).getLast?).getD st.1.Author.Email := by
  induction members generalizing st with
  | nil => simp [authorMembers]
  | cons member rest ih =>
    obtain ⟨h1, h2, h3, h4, h5⟩ := storePluginMember_value lib st member
    obtain ⟨k1, k2, k3, k4, k5⟩ := ih (storePluginMember lib st member)
    have hauthor : authorMembers lib (member :: rest) =
        authorMembers lib [member] ++ authorMembers lib rest := by
      simp [authorMembers]
    simp only [List.foldl_cons, getLast_filterMap_cons, hauthor, getLast_filterMap_append]
    exact ⟨k1.trans (by rw [h1]), k2.trans (by rw [h2]), k3.trans (by rw [h3]),
      k4.trans (by rw [h4]), k5.trans (by rw [h5])⟩

/-! ## Optional fields of the plugin descriptor -/

/-- C14 fails as stated: a plugin descriptor whose required fields are
non-empty strings and whose optional key `license` holds the number 5 is
rejected as invalid JSON, because the field `License` is declared a string. -/
theorem validatePlugin_optional_counterexample :
    str "license" ∈ optionalKeys ∧
    givenString (readsAs .null) pluginKeys (str "name")
      [(str "name", .string (str "p")), (str "description", .string (str "d")),
       (str "version", .string (str "1.0")),
       (str "author", .object [(str "name", .string (str "a")),
         (str "email", .string (str "a@x.com"))]),
       (str "license", .number (str "5"))] = str "p" ∧
    givenString (readsAs .null) pluginKeys (str "description")
      [(str "name", .string (str "p")), (str "description", .string (str "d")),
       (str "version", .string (str "1.0")),
       (str "author", .object [(str "name", .string (str "a")),
         (str "email", .string (str "a@x.com"))]),
       (str "license", .number (str "5"))] = str "d" ∧
    givenString (readsAs .null) pluginKeys (str "version")
      [(str "name", .string (str "p")), (str "description", .string (str "d")),
       (str "version", .string (str "1.0")),
       (str "author", .object [(str "name", .string (str "a")),
         (str "email", .string (str "a@x.com"))]),
       (str "license", .number (str "5"))] = str "1.0" ∧
    givenString (readsAs .null) ownerKeys (str "name")
      (authorMembers (readsAs .null)
      [(str "name", .string (str "p")), (str "description", .string (str "d")),
       (str "version", .string (str "1.0")),
       (str "author", .object [(str "name", .string (str "a")),
         (str "email", .string (str "a@x.com"))]),
       (str "license", .number (str "5"))]) = str "a" ∧
    givenString (readsAs .null) ownerKeys (str "email")
      (authorMembers (readsAs .null)
      [(str "name", .string (str "p")), (str "description", .string (str "d")),
       (str "version", .string (str "1.0")),
       (str "author", .object [(str "name", .string (str "a")),
         (str "email", .string (str "a@x.com"))]),
       (str "license", .number (str "5"))]) = str "a@x.com" ∧
    validatePlugin (fileWith [])
        (UnmarshalPluginConfig (readsAs
          (pluginObject (str "p") (str "d") (str "1.0") (str "a") (str "a@x.com")
            [(str "license", .number (str "5"))])))
        (str "plugins/p/plugin.json") =
      .error (str "invalid JSON: " ++
        (readsAs .null).errorText
          { Value := str "number", GoType := str "string", Field := [str "license"] }) := by
  decide

/-- C14, amended: for every JSON object, the plugin validator succeeds exactly
when every member that selects a field of `PluginConfig` holds a value of the
Go type declared for that field, or null, and the name, description, version,
author.name and author.email that the object gives are non-empty. The declared
types are a string for name, displayName, description, version, license,
repository, homepage, agents and commands, an array of strings for keywords,
an object for mcpServers, whose values are taken as they are provided their
numbers convert to float64, and an object for author, whose members that
select name, email or url hold a string or null. A member that selects no
field is ignored. When some member holds a value of another type, the
validator fails with an `invalid JSON` error. -/
theorem validatePlugin_object (lib : JSONPackage)
    (readFile : GoString → Except GoString GoString) (path data : GoString)
    (members : List (GoString × JSONValue))
    (hread : readFile path = .ok data) (hscan : lib.scan data = .ok (.object members)) :
    (validatePlugin readFile (UnmarshalPluginConfig lib) path = .ok () ↔
      (∀ member ∈ members, fitsMember lib member = true) ∧
      givenString lib pluginKeys (str "name") members ≠ [] ∧
      givenString lib pluginKeys (str "description") members ≠ [] ∧
      givenString lib pluginKeys (str "version") members ≠ [] ∧
      givenString lib ownerKeys (str "name") (authorMembers lib members) ≠ [] ∧
      givenString lib ownerKeys (str "email") (authorMembers lib members) ≠ []) ∧
    ((∃ member ∈ members, fitsMember lib member = false) →
      ∃ err, validatePlugin readFile (UnmarshalPluginConfig lib) path =
        .error (str "invalid JSON: " ++ lib.errorText err)) := by
  have hsaved := storePluginMembers_saved lib (zeroPluginConfig, none) members
  obtain ⟨h1, h2, h3, h4, h5⟩ := storePluginMembers_value lib (zeroPluginConfig, none) members
  obtain ⟨config, saved, hst⟩ : ∃ config saved,
      members.foldl (storePluginMember lib) (zeroPluginConfig, none) = (config, saved) :=
    ⟨_, _, rfl⟩
  rw [hst] at hsaved h1 h2 h3 h4 h5
  simp only [true_and] at hsaved
  have hzero : zeroPluginConfig.Name = [] ∧ zeroPluginConfig.Description = [] ∧
      zeroPluginConfig.Version = [] ∧ zeroPluginConfig.Author.Name = [] ∧
      zeroPluginConfig.Author.Email = [] := ⟨rfl, rfl, rfl, rfl, rfl⟩
  simp only [hzero.1, hzero.2.1, hzero.2.2.1, hzero.2.2.2.1, hzero.2.2.2.2] at h1 h2 h3 h4 h5
  cases saved with
  | some err =>
    have hparse : UnmarshalPluginConfig lib data = .error (lib.errorText err) := by
      simp only [UnmarshalPluginConfig, hscan, decodePluginConfig, hst]
    have hresult : validatePlugin readFile (UnmarshalPluginConfig lib) path =
        .error (str "invalid JSON: " ++ lib.errorText err) := by
      simp only [validatePlugin, hread, hparse]
    have hnot : ¬ ∀ member ∈ members, fitsMember lib member = true := fun h =>
      Option.noConfusion (hsaved.mpr h)
    refine ⟨?_, fun _ => ⟨err, hresult⟩⟩
    rw [hresult]
    constructor
    · intro h; exact Except.noConfusion h
    · intro h; exact absurd h.1 hnot
  | none =>
    have hfit : ∀ member ∈ members, fitsMember lib member = true := hsaved.mp rfl
    have hparse : UnmarshalPluginConfig lib data = .ok config := by
      simp only [UnmarshalPluginConfig, hscan, decodePluginConfig, hst]
    rw [validatePlugin_parsed readFile (UnmarshalPluginConfig lib) path data config hread hparse]
    refine ⟨?_, ?_⟩
    · simp only [givenString, ← h1, ← h2, ← h3, ← h4, ← h5]
      by_cases g1 : config.Name = []
      · simp [g1]
      by_cases g2 : config.Description = []
      · simp [g1, g2]
      by_cases g3 : config.Version = []
      · simp [g1, g2, g3]
      by_cases g4 : config.Author.Name = []
      · simp [g1, g2, g3, g4]
      by_cases g5 : config.Author.Email = []
      · simp [g1, g2, g3, g4, g5]
      · simp only [g1, g2, g3, g4, g5, if_false, ne_eq, not_false_eq_true, and_true, true_iff]
        exact hfit
    · rintro ⟨member, hmember, hbad⟩
      rw [hfit member hmember] at hbad
      exact Bool.noConfusion hbad

/-- Witness of C14 (amended): a descriptor whose members come in another
order, with an unknown key, a url of the author, keywords and an arbitrary
server configuration, is valid. -/
theorem validatePlugin_object_witness :
    validatePlugin (fileWith [])
        (UnmarshalPluginConfig (readsAs (.object
          [(str "hooks", .number (str "1")),
           (str "mcpServers", .object [(str "s", .array [.number (str "1.5"), .bool true])]),
           (str "author", .object [(str "url", .string (str "https://x.com")),
             (str "email", .string (str "a@x.com")), (str "name", .string (str "a"))]),
           (str "keywords", .array [.string (str "git")]),
           (str "version", .string (str "1.0")),
           (str "license", .string (str "MIT")),
           (str "description", .string (str "d")),
           (str "name", .string (str "p"))])))
        (str "plugins/p/plugin.json") = .ok () :=
  (validatePlugin_object
    (readsAs (.object
      [(str "hooks", .number (str "1")),
       (str "mcpServers", .object [(str "s", .array [.number (str "1.5"), .bool true])]),
       (str "author", .object [(str "url", .string (str "https://x.com")),
         (str "email", .string (str "a@x.com")), (str "name", .string (str "a"))]),
       (str "keywords", .array [.string (str "git")]),
       (str "version", .string (str "1.0")),
       (str "license", .string (str "MIT")),
       (str "description", .string (str "d")),
       (str "name", .string (str "p"))]))
    (fileWith []) (str "plugins/p/plugin.json") []
    [(str "hooks", .number (str "1")),
     (str "mcpServers", .object [(str "s", .array [.number (str "1.5"), .bool true])]),
     (str "author", .object [(str "url", .string (str "https://x.com")),
       (str "email", .string (str "a@x.com")), (str "name", .string (str "a"))]),
     (str "keywords", .array [.string (str "git")]),
     (str "version", .string (str "1.0")),
     (str "license", .string (str "MIT")),
     (str "description", .string (str "d")),
     (str "name", .string (str "p"))]
    rfl rfl).1.mpr
    ⟨by decide, by decide, by decide, by decide, by decide, by decide⟩

/-- The url of the author is typed as well: a descriptor whose required fields
are non-empty strings, without any optional key, is rejected as invalid JSON
when the url of its author is the number 5. -/
theorem validatePlugin_author_url :
    fitsMember (readsAs .null)
      (str "author", .object [(str "name", .string (str "a")),
        (str "email", .string (str "a@x.com")), (str "url", .number (str "5"))]) = false ∧
    validatePlugin (fileWith [])
        (UnmarshalPluginConfig (readsAs (.object
          [(str "name", .string (str "p")), (str "description", .string (str "d")),
           (str "version", .string (str "1.0")),
           (str "author", .object [(str "name", .string (str "a")),
             (str "email", .string (str "a@x.com")), (str "url", .number (str "5"))])])))
        (str "plugins/p/plugin.json") =
      .error (str "invalid JSON: " ++
        (readsAs .null).errorText
          { Value := str "number", GoType := str "string",
            Field := [str "author", str "url"] }) := by
  decide

/-! ## Error messages and changes of the input -/

/-- C15 fails as stated: the error of an empty plugins list does not contain
the text `plugins`. -/
theorem required_field_named_counterexample :
    validateMarketplace (fileWith [])
        (decodesTo (marketplace (str "m") (str "a") (str "a@x.com") (str "1.0") []))
        (str ".claude-plugin/marketplace.json") =
      .error (str "at least one plugin is required") ∧
    ¬ str "plugins" <:+: str "at least one plugin is required" := by
  refine ⟨by decide, ?_⟩
  rw [← Contains_iff]
  decide

/-- A message that starts with a field path contains it. -/
theorem infix_required (fieldPath : GoString) (rest : GoString) :
    fieldPath <:+: fieldPath ++ rest :=
  ⟨[], rest, by simp⟩

/-- C15, amended: when a parsed marketplace or plugin descriptor fails a
required-field check, the error message contains the path of the violated
field: `name`, `owner.name`, `owner.email`, `version`, `plugin[i].name`,
`plugin[i].source` for the marketplace validator and `name`, `description`,
`version`, `author.name`, `author.email` for the plugin validator; the error
of an empty plugins list reads `at least one plugin is required`. -/
theorem required_field_named
    (readFile : GoString → Except GoString GoString)
    (unmarshalMarketplace : GoString → Except GoString MarketplaceConfig)
    (unmarshalPlugin : GoString → Except GoString PluginConfig)
    (path data : GoString) (config : MarketplaceConfig)
    (pluginPath pluginData : GoString) (plugin : PluginConfig)
    (hread : readFile path = .ok data) (hparse : unmarshalMarketplace data = .ok config)
    (hpluginRead : readFile pluginPath = .ok pluginData)
    (hpluginParse : unmarshalPlugin pluginData = .ok plugin) :
    (∀ msg, validateMarketplace readFile unmarshalMarketplace path = .error msg →
      (config.Name = [] ∧ str "name" <:+: msg) ∨
      (config.Name ≠ [] ∧ config.Owner.Name = [] ∧ str "owner.name" <:+: msg) ∨
      (config.Name ≠ [] ∧ config.Owner.Name ≠ [] ∧ config.Owner.Email = [] ∧
        str "owner.email" <:+: msg) ∨
      (config.Name ≠ [] ∧ config.Owner.Name ≠ [] ∧ config.Owner.Email ≠ [] ∧
        config.Version = [] ∧ str "version" <:+: msg) ∨
      (config.Name ≠ [] ∧ config.Owner.Name ≠ [] ∧ config.Owner.Email ≠ [] ∧
        config.Version ≠ [] ∧ config.Plugins = [] ∧
        msg = str "at least one plugin is required") ∨
      (config.Name ≠ [] ∧ config.Owner.Name ≠ [] ∧ config.Owner.Email ≠ [] ∧
        config.Version ≠ [] ∧
        ∃ i p, config.Plugins[i]? = some p ∧
          ((p.Name = [] ∧ str "plugin[" ++ Itoa i ++ str "].name" <:+: msg) ∨
            (p.Name ≠ [] ∧ p.Source = [] ∧
              str "plugin[" ++ Itoa i ++ str "].source" <:+: msg)))) ∧
    (∀ msg, validatePlugin readFile unmarshalPlugin pluginPath = .error msg →
      (plugin.Name = [] ∧ str "name" <:+: msg) ∨
      (plugin.Name ≠ [] ∧ plugin.Description = [] ∧ str "description" <:+: msg) ∨
      (plugin.Name ≠ [] ∧ plugin.Description ≠ [] ∧ plugin.Version = [] ∧
        str "version" <:+: msg) ∨
      (plugin.Name ≠ [] ∧ plugin.Description ≠ [] ∧ plugin.Version ≠ [] ∧
        plugin.Author.Name = [] ∧ str "author.name" <:+: msg) ∨
      (plugin.Name ≠ [] ∧ plugin.Description ≠ [] ∧ plugin.Version ≠ [] ∧
        plugin.Author.Name ≠ [] ∧ plugin.Author.Email = [] ∧
        str "author.email" <:+: msg)) := by
  constructor
  · intro msg hmsg
    rw [validateMarketplace_parsed readFile unmarshalMarketplace path data config hread hparse]
      at hmsg
    by_cases h1 : config.Name = []
    · simp only [h1, if_true, Except.error.injEq] at hmsg
      subst hmsg
      exact Or.inl ⟨h1, infix_required (str "name") (str " is required")⟩
    by_cases h2 : config.Owner.Name = []
    · simp only [h1, h2, if_true, if_false, Except.error.injEq] at hmsg
      subst hmsg
      exact Or.inr (Or.inl ⟨h1, h2, infix_required (str "owner.name") (str " is required")⟩)
    by_cases h3 : config.Owner.Email = []
    · simp only [h1, h2, h3, if_true, if_false, Except.error.injEq] at hmsg
      subst hmsg
      exact Or.inr (Or.inr (Or.inl
        ⟨h1, h2, h3, infix_required (str "owner.email") (str " is required")⟩))
    by_cases h4 : config.Version = []
    · simp only [h1, h2, h3, h4, if_true, if_false, Except.error.injEq] at hmsg
      subst hmsg
      exact Or.inr (Or.inr (Or.inr (Or.inl
        ⟨h1, h2, h3, h4, infix_required (str "version") (str " is required")⟩)))
    by_cases h5 : config.Plugins = []
    · simp only [h1, h2, h3, h4, h5, if_true, if_false, List.length_nil,
        Except.error.injEq] at hmsg
      exact Or.inr (Or.inr (Or.inr (Or.inr (Or.inl ⟨h1, h2, h3, h4, h5, hmsg.symm⟩))))
    · simp only [h1, h2, h3, h4, h5, if_false, List.length_eq_zero] at hmsg
      have hbad : ∃ p ∈ config.Plugins, p.Name = [] ∨ p.Source = [] := by
        by_contra hnone
        push_neg at hnone
        rw [(validatePluginEntries_ok_iff 0 config.Plugins).mpr hnone] at hmsg
        exact Except.noConfusion hmsg
      obtain ⟨i, p, hi, hp, _, hres⟩ := validatePluginEntries_first_bad 0 config.Plugins hbad
      rw [hres, Nat.zero_add] at hmsg
      refine Or.inr (Or.inr (Or.inr (Or.inr (Or.inr ⟨h1, h2, h3, h4, i, p, hi, ?_⟩))))
      by_cases hn : p.Name = []
      · simp only [hn, if_true, Except.error.injEq] at hmsg
        subst hmsg
        left
        refine ⟨hn, ?_⟩
        rw [List.append_assoc]
        exact ⟨[], str " is required", by simp [List.append_assoc]; rfl⟩
      · simp only [hn, if_false, Except.error.injEq] at hmsg
        subst hmsg
        right
        refine ⟨hn, hp.resolve_left hn, ?_⟩
        exact ⟨[], str " is required", by simp [List.append_assoc]; rfl⟩
  · intro msg hmsg
    rw [validatePlugin_parsed readFile unmarshalPlugin pluginPath pluginData plugin hpluginRead
      hpluginParse] at hmsg
    by_cases h1 : plugin.Name = []
    · simp only [h1, if_true, Except.error.injEq] at hmsg
      subst hmsg
      exact Or.inl ⟨h1, infix_required (str "name") (str " is required")⟩
    by_cases h2 : plugin.Description = []
    · simp only [h1, h2, if_true, if_false, Except.error.injEq] at hmsg
      subst hmsg
      exact Or.inr (Or.inl ⟨h1, h2, infix_required (str "description") (str " is required")⟩)
    by_cases h3 : plugin.Version = []
    · simp only [h1, h2, h3, if_true, if_false, Except.error.injEq] at hmsg
      subst hmsg
      exact Or.inr (Or.inr (Or.inl
        ⟨h1, h2, h3, infix_required (str "version") (str " is required")⟩))
    by_cases h4 : plugin.Author.Name = []
    · simp only [h1, h2, h3, h4, if_true, if_false, Except.error.injEq] at hmsg
      subst hmsg
      exact Or.inr (Or.inr (Or.inr (Or.inl
        ⟨h1, h2, h3, h4, infix_required (str "author.name") (str " is required")⟩)))
    by_cases h5 : plugin.Author.Email = []
    · simp only [h1, h2, h3, h4, h5, if_true, if_false, Except.error.injEq] at hmsg
      subst hmsg
      exact Or.inr (Or.inr (Or.inr (Or.inr
        ⟨h1, h2, h3, h4, h5, infix_required (str "author.email") (str " is required")⟩)))
    · simp [h1, h2, h3, h4, h5] at hmsg

/-- Witness of C15 (amended): the error of a plugin descriptor without
author.email contains `author.email`. -/
theorem required_field_named_witness :
    (pluginConfig (str "p") (str "d") (str "1.0") (str "a") []).Author.Email = [] ∧
    str "author.email" <:+: str "author.email is required" :=
  ⟨by decide,
    ((required_field_named (fileWith [])
      (decodesTo (marketplace (str "m") (str "a") (str "a@x.com") (str "1.0") []))
      (decodesTo (pluginConfig (str "p") (str "d") (str "1.0") (str "a") []))
      (str ".claude-plugin/marketplace.json") []
      (marketplace (str "m") (str "a") (str "a@x.com") (str "1.0") [])
      (str "plugins/p/plugin.json") []
      (pluginConfig (str "p") (str "d") (str "1.0") (str "a") []) rfl rfl rfl rfl).2
      (str "author.email is required") (by decide)).elim
      (fun h => absurd h.1 (by decide))
      (fun h => h.elim (fun h => absurd h.2.1 (by decide))
        (fun h => h.elim (fun h => absurd h.2.2.1 (by decide))
          (fun h => h.elim (fun h => absurd h.2.2.2.1 (by decide))
            (fun h => h.2.2.2.2.2))))⟩

/-- The loop over a list of entries followed by further entries: an error in
the first list is the result, and otherwise the loop goes on in the further
entries with the next index. -/
theorem validatePluginEntries_append (k : Nat) (ps extra : List Plugin) :
    validatePluginEntries k (ps ++ extra) =
      match validatePluginEntries k ps with
      | .error e => .error e
      | .ok _ => validatePluginEntries (k + ps.length) extra := by
  induction ps generalizing k with
  | nil => simp [validatePluginEntries]
  | cons p rest ih =>
    by_cases hn : p.Name = []
    · simp [validatePluginEntries, hn]
    · by_cases hs : p.Source = []
      · simp [validatePluginEntries, hn, hs]
      · have hlen : k + 1 + rest.length = k + (rest.length + 1) := by omega
        simp only [List.cons_append, validatePluginEntries, hn, hs, if_false,
          List.length_cons]
        rw [← hlen]
        exact ih (k + 1)

/-- C16: appending entries to the non-empty plugins list of a parsed
marketplace descriptor keeps an existing failure, with the same error; and
appending entries that each have a non-empty name and source to a valid
descriptor leaves it valid. -/
theorem validateMarketplace_append
    (readFile : GoString → Except GoString GoString)
    (unmarshal : GoString → Except GoString MarketplaceConfig)
    (path data : GoString) (config : MarketplaceConfig)
    (longerPath longerData : GoString) (extra : List Plugin)
    (hread : readFile path = .ok data) (hparse : unmarshal data = .ok config)
    (hlongerRead : readFile longerPath = .ok longerData)
    (hlongerParse : unmarshal longerData =
      .ok { config with Plugins := config.Plugins ++ extra })
    (hplugins : config.Plugins ≠ []) :
    (∀ e, validateMarketplace readFile unmarshal path = .error e →
      validateMarketplace readFile unmarshal longerPath = .error e) ∧
    (validateMarketplace readFile unmarshal path = .ok () →
      (∀ p ∈ extra, p.Name ≠ [] ∧ p.Source ≠ []) →
      validateMarketplace readFile unmarshal longerPath = .ok ()) := by
  rw [validateMarketplace_parsed readFile unmarshal path data config hread hparse,
    validateMarketplace_parsed readFile unmarshal longerPath longerData _ hlongerRead
      hlongerParse]
  have hlonger : config.Plugins ++ extra ≠ [] := by
    intro h
    exact hplugins (List.append_eq_nil.mp h).1
  simp only [List.length_eq_zero, hplugins, hlonger, if_false, validatePluginEntries_append]
  by_cases h1 : config.Name = []
  · simp [h1]
  by_cases h2 : config.Owner.Name = []
  · simp [h1, h2]
  by_cases h3 : config.Owner.Email = []
  · simp [h1, h2, h3]
  by_cases h4 : config.Version = []
  · simp [h1, h2, h3, h4]
  simp only [h1, h2, h3, h4, if_false]
  cases hv : validatePluginEntries 0 config.Plugins with
  | error e0 => simp
  | ok u =>
    refine ⟨fun e he => Except.noConfusion he, fun _ hextra => ?_⟩
    exact (validatePluginEntries_ok_iff _ extra).mpr hextra

/-- Witness of C16: a descriptor rejected for `plugin[0].source` is rejected
with the same error after a valid entry is appended. -/
theorem validateMarketplace_append_witness :
    validateMarketplace
        (fun path => if path = str "a.json" then .ok (str "a") else .ok (str "b"))
        (fun data =>
          if data = str "a" then
            .ok (marketplace (str "m") (str "a") (str "a@x.com") (str "1.0")
              [entry (str "p") []])
          else
            .ok (marketplace (str "m") (str "a") (str "a@x.com") (str "1.0")
              [entry (str "p") [], entry (str "q") (str "./plugins/q")]))
        (str "b.json") = .error (str "plugin[0].source is required") :=
  (validateMarketplace_append
    (fun path => if path = str "a.json" then .ok (str "a") else .ok (str "b"))
    (fun data =>
      if data = str "a" then
        .ok (marketplace (str "m") (str "a") (str "a@x.com") (str "1.0")
          [entry (str "p") []])
      else
        .ok (marketplace (str "m") (str "a") (str "a@x.com") (str "1.0")
          [entry (str "p") [], entry (str "q") (str "./plugins/q")]))
    (str "a.json") (str "a")
    (marketplace (str "m") (str "a") (str "a@x.com") (str "1.0") [entry (str "p") []])
    (str "b.json") (str "b") [entry (str "q") (str "./plugins/q")]
    rfl rfl rfl rfl (List.cons_ne_nil _ _)).1 (str "plugin[0].source is required") (by decide)

/-- C17: for every path and every content that begins with the delimiter on
which the validator succeeds, the validator also succeeds on that content
followed by any appended text. -/
theorem validateYAMLFrontmatter_append
    (readFile readLonger : GoString → Except GoString GoString)
    (path content appended : GoString)
    (hread : readFile path = .ok content)
    (hreadLonger : readLonger path = .ok (content ++ appended))
    (hbegins : delim <+: content)
    (hok : validateYAMLFrontmatter readFile path = .ok ()) :
    validateYAMLFrontmatter readLonger path = .ok () := by
  have hbegins2 : delim <+: content ++ appended := hbegins.trans (List.prefix_append _ _)
  rw [validateYAMLFrontmatter_delim readFile path content hread hbegins] at hok
  rw [validateYAMLFrontmatter_delim readLonger path (content ++ appended) hreadLonger hbegins2]
  by_cases hc : delim <:+: content.drop 4
  · have hlen : 4 ≤ content.length := by
      have := hbegins.length_le
      rw [delim_length] at this
      exact this
    have hdrop : (content ++ appended).drop 4 = content.drop 4 ++ appended :=
      List.drop_append_of_le_length hlen
    have hc2 : delim <:+: (content ++ appended).drop 4 := by
      rw [hdrop]
      exact hc.trans (List.prefix_append _ _).isInfix
    simp [hc2]
  · simp [hc] at hok

/-- Witness of C17: a body is appended to a document with a closed header. -/
theorem validateYAMLFrontmatter_append_witness :
    validateYAMLFrontmatter (fileWith (str "---\nname: x\n---\n" ++ str "More body ---\n"))
      (str "plugins/p/agents/helper.md") = .ok () :=
  validateYAMLFrontmatter_append (fileWith (str "---\nname: x\n---\n"))
    (fileWith (str "---\nname: x\n---\n" ++ str "More body ---\n"))
    (str "plugins/p/agents/helper.md") (str "---\nname: x\n---\n") (str "More body ---\n")
    rfl rfl ⟨str "name: x\n---\n", by decide⟩ (by decide)

end Validate
